import Mathlib

/-!
# awtrix-light-tibber: price window, current-price test, colours and bars

A shallow embedding of `src/main.go`.

Modelling conventions.

* `time.Time` is an instant (nanoseconds since the Unix epoch, unbounded) together
  with a `Location`; a location maps a Unix second to the UTC offset in force at that
  second, which is how the Go standard library resolves wall-clock fields.
* `time.Now()` is the parameter `now`: one clock reading shared by every call made
  during one evaluation of a function.
* A `float64` price is the rational it denotes.  The results of float64 operations
  live in `F64`, which adds the IEEE-754 infinities and NaN to the rationals, and each
  operation and each constant is rounded to binary64 (nearest, ties to even).
* `log.Fatalf` ends the process; it is the `Except.error` outcome carrying a `Fatal`.
* The package-level variable `knownPrices` is passed in and returned explicitly.
-/

namespace AwtrixTibber

/-! ## Time (Go standard library, package `time`) -/

/-- A time zone: the offset east of UTC, in seconds, in force at a given Unix second. -/
structure Location where
  offset : Int → Int

/-- An instant with the location its wall-clock fields are read in. -/
structure Time where
  ns : Int
  loc : Location

/-- The location with a constant UTC offset. -/
def Location.fixed (seconds : Int) : Location := ⟨fun _ => seconds⟩

/-- Coordinated universal time. -/
def Location.utc : Location := Location.fixed 0

/-- Nanoseconds in one hour (`time.Hour`). -/
def hourNs : Int := 3600 * 1000000000

namespace Time

/-- Seconds since the Unix epoch (`t.Unix()`). -/
def unix (t : Time) : Int := t.ns / 1000000000

/-- Wall-clock seconds: Unix seconds shifted by the offset in force at the instant. -/
def wall (t : Time) : Int := t.unix + t.loc.offset t.unix

/-- Go's `t.Before(u)`: the instant `t` is strictly earlier than `u`. -/
def Before (t u : Time) : Bool := decide (t.ns < u.ns)

/-- Go's `t.After(u)`: the instant `t` is strictly later than `u`. -/
def After (t u : Time) : Bool := decide (t.ns > u.ns)

/-- Go's `t.Equal(u)`: same instant, whatever the locations. -/
def Equal (t u : Time) : Bool := decide (t.ns = u.ns)

/-- Go's `t.Add(d)`: the instant `d` nanoseconds later, in the same location. -/
def Add (t : Time) (d : Int) : Time := { t with ns := t.ns + d }

/-- Proleptic Gregorian date `(year, month, day)` of a day number counted from
1970-01-01, computed era by era (400-year cycles starting on 1 March). -/
def civil (days : Int) : Int × Int × Int :=
  let z := days + 719468
  let era := z / 146097
  let doe := z % 146097
  let yoe := (doe - doe / 1460 + doe / 36524 - doe / 146096) / 365
  let doy := doe - (365 * yoe + yoe / 4 - yoe / 100)
  let mp := (5 * doy + 2) / 153
  let d := doy - (153 * mp + 2) / 5 + 1
  let m := if mp < 10 then mp + 3 else mp - 9
  let y := yoe + era * 400 + (if m ≤ 2 then 1 else 0)
  (y, m, d)

/-- Go's `t.Year()`. -/
def Year (t : Time) : Int := (civil (t.wall / 86400)).1

/-- Go's `t.Month()`, January being 1. -/
def Month (t : Time) : Int := (civil (t.wall / 86400)).2.1

/-- Go's `t.Day()`: the day of the month, 1 to 31. -/
def Day (t : Time) : Int := (civil (t.wall / 86400)).2.2

/-- Go's `t.Hour()`: the hour within the day, 0 to 23. -/
def Hour (t : Time) : Int := t.wall % 86400 / 3600

end Time

/-! ## Data -/

/-- Modelled from the spec: the record type `tibberPrice`, declared outside `main.go`.
It is the spec's price record `{ startsAt: timestamp, total: decimal amount }`, under
the field names `main.go` uses. -/
structure tibberPrice where
  Total : ℚ
  StartsAt : Time

/-- Modelled from the spec: the draw command type `AwtrixDrawCommand`, declared outside
`main.go`.  It covers the spec's text command `{command, x, y, text, color}` and fill
command `{command, x, y, width, height, color}`; a field left out is a Go zero value. -/
structure AwtrixDrawCommand where
  Command : String := ""
  X : Int := 0
  Y : Int := 0
  Width : Int := 0
  Height : Int := 0
  Text : String := ""
  Color : String := ""

/-- The ways the process is ended by `log.Fatalf`. -/
inductive Fatal where
  | fetchFailed (err : String)
  | cantPlace (price : tibberPrice)
  | publishFailed (err : String)

/-! ## float64 (IEEE-754 binary64) and int -/

/-- Values of a `float64` computation: a rational, an infinity or NaN.  A zero is the
positive zero, which is what `x - x` gives. -/
inductive F64 where
  | fin (q : ℚ)
  | posInf
  | negInf
  | nan

namespace F64

/-- The exact sum of two float64 values, before rounding. -/
def add : F64 → F64 → F64
  | fin a, fin b => fin (a + b)
  | nan, _ => nan
  | _, nan => nan
  | posInf, negInf => nan
  | negInf, posInf => nan
  | posInf, _ => posInf
  | negInf, _ => negInf
  | fin _, posInf => posInf
  | fin _, negInf => negInf

/-- The exact product of two float64 values, before rounding. -/
def mul : F64 → F64 → F64
  | fin a, fin b => fin (a * b)
  | nan, _ => nan
  | _, nan => nan
  | posInf, fin b => if b = 0 then nan else if 0 < b then posInf else negInf
  | negInf, fin b => if b = 0 then nan else if 0 < b then negInf else posInf
  | fin a, posInf => if a = 0 then nan else if 0 < a then posInf else negInf
  | fin a, negInf => if a = 0 then nan else if 0 < a then negInf else posInf
  | posInf, posInf => posInf
  | negInf, negInf => posInf
  | posInf, negInf => negInf
  | negInf, posInf => negInf

/-- The exact quotient of two float64 values, before rounding; a zero divisor is the
positive zero. -/
def div : F64 → F64 → F64
  | fin a, fin b =>
    if b = 0 then (if a = 0 then nan else if 0 < a then posInf else negInf)
    else fin (a / b)
  | nan, _ => nan
  | _, nan => nan
  | fin _, posInf => fin 0
  | fin _, negInf => fin 0
  | posInf, fin b => if 0 ≤ b then posInf else negInf
  | negInf, fin b => if 0 ≤ b then negInf else posInf
  | posInf, posInf => nan
  | posInf, negInf => nan
  | negInf, posInf => nan
  | negInf, negInf => nan

/-- The conversion `int(x)` on a 64-bit target: truncation toward zero when the
result fits; otherwise the Go specification leaves the result to the implementation,
and it is the parameter `impl`. -/
def toInt (impl : Int) : F64 → Int
  | fin q =>
    let t : Int := if 0 ≤ q then ⌊q⌋ else ⌈q⌉
    if -(2 : Int) ^ 63 ≤ t ∧ t < (2 : Int) ^ 63 then t else impl
  | _ => impl

end F64

/-- Wrap-around of 64-bit signed `int` arithmetic. -/
def wrap64 (x : Int) : Int := (x + 2 ^ 63) % 2 ^ 64 - 2 ^ 63

/-- Nearest integer, ties to the even one. -/
def roundHalfEven (x : ℚ) : Int :=
  if x - (⌊x⌋ : ℚ) < 1 / 2 then ⌊x⌋
  else if 1 / 2 < x - (⌊x⌋ : ℚ) then ⌊x⌋ + 1
  else if ⌊x⌋ % 2 = 0 then ⌊x⌋ else ⌊x⌋ + 1

/-- The binary64 value nearest to a rational, ties to the even significand
(IEEE-754 round-to-nearest-even): a 53-bit significand times a power of two whose
exponent is at least -1074; the exponent is not bounded above here. -/
def round64 (q : ℚ) : ℚ :=
  if q = 0 then 0
  else
    let e : Int := max (Int.log 2 |q|) (-1022) - 52
    (roundHalfEven (q / (2 : ℚ) ^ e) : ℚ) * (2 : ℚ) ^ e

namespace F64

/-- The result of a float64 operation whose exact value is given: rounded to binary64,
an infinity beyond the greatest finite value. -/
def round : F64 → F64
  | fin q =>
    if (2 : ℚ) ^ (1024 : Nat) ≤ round64 q then posInf
    else if round64 q ≤ -(2 : ℚ) ^ (1024 : Nat) then negInf
    else fin (round64 q)
  | x => x

end F64

/-- Go's `math.Round`: the nearest integer, halves rounded away from zero. -/
def mathRound (x : ℚ) : ℚ :=
  if 0 ≤ x then ((⌊x + 1 / 2⌋ : Int) : ℚ) else ((⌈x - 1 / 2⌉ : Int) : ℚ)

namespace F64

/-- Go's `math.Round` on a float64 value; the result is exact. -/
def mathRound : F64 → F64
  | fin q => fin (AwtrixTibber.mathRound q)
  | x => x

end F64

/-! ## Price window -/

/-- Function `fetchPrices`: the provider's answer replaces `knownPrices`; an error is
fatal.  The answer of `readPrices`, which is declared outside `main.go`, is the
parameter `response`. -/
def fetchPrices (response : Except String (List tibberPrice))
    (_knownPrices : List tibberPrice) : Except Fatal (List tibberPrice) :=
  match response with
  | .error err => .error (Fatal.fetchFailed err)
  | .ok prices => .ok prices

/-- One iteration of the loop of `splitPrices`. -/
def splitStep (now : Time) (acc : List tibberPrice × List tibberPrice)
    (price : tibberPrice) : Except Fatal (List tibberPrice × List tibberPrice) :=
  if price.StartsAt.Before now then
    .ok (acc.1 ++ [price], acc.2)
  else if price.StartsAt.After now then
    .ok (acc.1, acc.2 ++ [price])
  else
    .error (Fatal.cantPlace price)

/-- Function `splitPrices`: historic and upcoming records, in input order. -/
def splitPrices (now : Time) (prices : List tibberPrice) :
    Except Fatal (List tibberPrice × List tibberPrice) :=
  prices.foldlM (splitStep now) ([], [])

/-- Function `updateKnowPrices`: the new value of `knownPrices`. -/
def updateKnowPrices (now : Time) (knownPrices : List tibberPrice) :
    Except Fatal (List tibberPrice) :=
  if knownPrices.length = 0 then
    .ok knownPrices
  else
    match splitPrices now knownPrices with
    | .error e => .error e
    | .ok (historicPrices, upcomingPrices) =>
      let historicPrices :=
        if historicPrices.length ≥ 4 then
          historicPrices.drop (historicPrices.length - 4)
        else historicPrices
      .ok (historicPrices ++ upcomingPrices)

/-- The part of one pass of the loop of `main` that sets `knownPrices`:
`fetchPrices` followed by `updateKnowPrices`. -/
def tick (now : Time) (response : Except String (List tibberPrice))
    (knownPrices : List tibberPrice) : Except Fatal (List tibberPrice) :=
  match fetchPrices response knownPrices with
  | .error e => .error e
  | .ok fetched => updateKnowPrices now fetched

/-! ## Current price and colours -/

/-- The is-current test, written out twice in the source (in `currentPrice` and in
`mapPriceToColor`): same day of the month and same hour of the day as the clock. -/
def isCurrent (now : Time) (price : tibberPrice) : Bool :=
  price.StartsAt.Day == now.Day && price.StartsAt.Hour == now.Hour

/-- Function `currentPrice`: the first record passing the is-current test, or the error. -/
def currentPrice (now : Time) : List tibberPrice → Except String tibberPrice
  | [] => .error "could not find current price"
  | price :: rest =>
    if isCurrent now price then .ok price else currentPrice now rest

/-- Function `mapPriceToColor`: white for the current record, else the threshold ladder.
Each constant of the source is a float64: the binary64 value nearest to the decimal
written there. -/
def mapPriceToColor (now : Time) (price : tibberPrice) : String :=
  if isCurrent now price then "#FFFFFF"
  else if price.Total ≤ round64 0.20 then "#6464ff"
  else if price.Total < round64 0.25 then "#00ff00"
  else if price.Total < round64 0.30 then "#ffff00"
  else if price.Total < round64 0.35 then "#ff8000"
  else if price.Total < round64 0.4 then "#ff0000"
  else "#800080"

/-! ## Bars -/

/-- The loop of `mapToDrawingCommands` finding the least and the greatest total,
started from `(minPrice, maxPrice)`. -/
def priceRange (init : ℚ × ℚ) (prices : List tibberPrice) : ℚ × ℚ :=
  prices.foldl
    (fun acc price =>
      let minPrice := if price.Total < acc.1 then price.Total else acc.1
      let maxPrice := if price.Total > acc.2 then price.Total else acc.2
      (minPrice, maxPrice))
    init

/-- The value of `minPrice` after the first loop of `mapToDrawingCommands`
(0 on the empty list, where the source returns before computing it). -/
def minPrice (prices : List tibberPrice) : ℚ :=
  match prices with
  | [] => 0
  | first :: _ => (priceRange (first.Total, first.Total) prices).1

/-- The value of `maxPrice` after the first loop of `mapToDrawingCommands`
(0 on the empty list, where the source returns before computing it). -/
def maxPrice (prices : List tibberPrice) : ℚ :=
  match prices with
  | [] => 0
  | first :: _ => (priceRange (first.Total, first.Total) prices).2

/-- The value of `scaledPrice` for one record; `slope` is computed once in the source
and has the same value for every record.  Every float64 operation is rounded to
binary64, the multiplication and the addition each on its own. -/
def scaledPrice (minPrice maxPrice : ℚ) (price : tibberPrice) : F64 :=
  let yMin : Int := 1
  let yMax : Int := 8
  let slope := F64.round (F64.div
    (F64.round (F64.mul (F64.fin 1.0) (F64.fin ((yMax - yMin : Int) : ℚ))))
    (F64.round (F64.fin (maxPrice - minPrice))))
  F64.round (F64.add (F64.fin (yMin : ℚ))
    (F64.round (F64.mul slope (F64.round (F64.fin (price.Total - minPrice))))))

/-- Function `mapToDrawingCommands`: one fill command per record.  `impl` is the result of
`int(x)` for an `x` that `int` cannot represent. -/
def mapToDrawingCommands (impl : Int) (now : Time) (prices : List tibberPrice) :
    List AwtrixDrawCommand :=
  if prices.length = 0 then
    []
  else
    let minPrice := minPrice prices
    let maxPrice := maxPrice prices
    let yMax : Int := 8
    let xOffset : Int := 12
    prices.mapIdx fun i price =>
      let scaled := scaledPrice minPrice maxPrice price
      let color := mapPriceToColor now price
      { Command := "df", X := xOffset + (i : Int), Y := wrap64 (yMax - F64.toInt impl scaled),
        Width := 1, Height := yMax, Color := color }

/-! ## Display -/

/-- The package-level variable `chartBarCount`. -/
def chartBarCount : Nat := 36 - 12

/-- The package-level variable `customAppName`. -/
def customAppName : String := "tibberPrices"

/-- Modelled from the spec: the payload type `AwtrixApp`, declared outside `main.go`.
It is the spec's named application payload holding an ordered list of draw commands. -/
structure AwtrixApp where
  Draw : List AwtrixDrawCommand

/-- Function `roundedPrice`: the product `price * 100` is rounded to binary64 before
`math.Round`. -/
def roundedPrice (impl : Int) (price : ℚ) : Int :=
  F64.toInt impl (F64.mathRound (F64.round (F64.mul (F64.fin price) (F64.fin 100))))

/-- Go's `fmt.Sprintf(" %d", n)`: a space, then `n` in decimal. -/
def sprintfSpaceD (n : Int) : String := " " ++ toString n

/-- The value of `relevantPrices` in `updateDisplay`. -/
def relevantPrices (knownPrices : List tibberPrice) : List tibberPrice :=
  if knownPrices.length > chartBarCount then knownPrices.take chartBarCount else knownPrices

/-- The value of `app` in `updateDisplay`: the payload handed to `postApplication`. -/
def displayApp (impl : Int) (now : Time) (knownPrices : List tibberPrice) : AwtrixApp :=
  let relevantPrices := relevantPrices knownPrices
  let currentPriceString :=
    match currentPrice now relevantPrices with
    | .ok current => sprintfSpaceD (roundedPrice impl current.Total)
    | .error _ => "?"
  let commandsText : List AwtrixDrawCommand :=
    [{ Command := "dt", X := 0, Y := 1, Text := currentPriceString, Color := "#FFFFFF" }]
  let commandsChart := mapToDrawingCommands impl now relevantPrices
  { Draw := commandsText ++ commandsChart }

/-- Function `updateDisplay`: builds the payload and posts it; a failed post is fatal.
The display client `postApplication`, declared outside `main.go`, and the address flag
are parameters; the result is the payload that was posted. -/
def updateDisplay (impl : Int) (now : Time)
    (postApplication : String → String → AwtrixApp → Option String) (flagAwtrixIP : String)
    (knownPrices : List tibberPrice) : Except Fatal AwtrixApp :=
  let app := displayApp impl now knownPrices
  match postApplication flagAwtrixIP customAppName app with
  | some err => .error (Fatal.publishFailed err)
  | none => .ok app

/-- Sample record: the total is the binary64 value the JSON decoder yields for the
decimal `d`; it starts at hour number `h` (UTC). -/
def decoded (d : ℚ) (h : Int) : tibberPrice := ⟨round64 d, ⟨h * hourNs, Location.utc⟩⟩

/-- Sample window: the totals 0.10, 0.30, 0.20 as decoded. -/
def sampleDecoded : List tibberPrice := [decoded 0.10 700, decoded 0.30 701, decoded 0.20 702]

/-! ## Vocabulary of the specification and sample data -/

/-- Number of records starting strictly before the clock reading. -/
def historicCount (now : Time) (prices : List tibberPrice) : Nat :=
  prices.countP (fun p => p.StartsAt.Before now)

/-- Number of records starting strictly after the clock reading. -/
def upcomingCount (now : Time) (prices : List tibberPrice) : Nat :=
  prices.countP (fun p => p.StartsAt.After now)

/-- The last four elements of a list, or all of them when there are fewer. -/
def lastFour (l : List tibberPrice) : List tibberPrice :=
  (l.reverse.take 4).reverse

/-- Sample data: `n` records at consecutive full hours (UTC) from hour number
`first`, all with the same total. -/
def hourly (first : Int) (n : Nat) : List tibberPrice :=
  (List.range n).map fun (i : Nat) => ⟨0.25, ⟨(first + (i : Int)) * hourNs, Location.utc⟩⟩

/-- Sample clock reading: half past hour number `h` (UTC). -/
def halfPast (h : Int) : Time := ⟨h * hourNs + 1800 * 1000000000, Location.utc⟩

/-- Same clock hour of the same calendar day: equal year, month, day and hour, that is,
both wall-clock readings truncated to the hour coincide. -/
def sameClockHour (a b : Time) : Bool :=
  a.Year == b.Year && a.Month == b.Month && a.Day == b.Day && a.Hour == b.Hour

/-- The instant `t.Truncate(time.Hour)`, in nanoseconds since the Unix epoch. -/
def truncHour (t : Time) : Int := t.ns - t.ns % hourNs

/-- Sample location: Central European time around the end of summer time on
27 October 2024, UTC+2 before 01:00 UTC (Unix second 1729990800) and UTC+1 after. -/
def berlinAutumn2024 : Location :=
  ⟨fun u => if u < 1729990800 then 7200 else 3600⟩

/-- Sample record: starts on 15 January 2024 at 10:00 UTC. -/
def january15 : tibberPrice := ⟨0.25, ⟨1705312800 * 1000000000, Location.utc⟩⟩

/-- Sample clock reading: 15 February 2024 at 10:30 UTC. -/
def february15 : Time := ⟨1707993000 * 1000000000, Location.utc⟩

/-- Sample record: starts on 27 October 2024 at 02:00 summer time (00:00 UTC). -/
def autumnRecord : tibberPrice := ⟨0.25, ⟨1729987200 * 1000000000, berlinAutumn2024⟩⟩

/-- Sample clock reading: 27 October 2024 at 02:30 summer time (00:30 UTC). -/
def autumnNow : Time := ⟨1729989000 * 1000000000, berlinAutumn2024⟩

/-- Sample record with a given total, starting at hour number `h` (UTC). -/
def priced (total : ℚ) (h : Int) : tibberPrice := ⟨total, ⟨h * hourNs, Location.utc⟩⟩

/-- Rank of a colour in the order blue, green, yellow, orange, red, purple. -/
def colourTier (c : String) : Nat :=
  if c = "#6464ff" then 0
  else if c = "#00ff00" then 1
  else if c = "#ffff00" then 2
  else if c = "#ff8000" then 3
  else if c = "#ff0000" then 4
  else if c = "#800080" then 5
  else 6

/-- Ascending by `StartsAt`. -/
def sortedByStart (prices : List tibberPrice) : Prop :=
  prices.Pairwise (fun a b => a.StartsAt.ns ≤ b.StartsAt.ns)

/-- Sample record on the night summer time ends (27 October 2024, Central European
time): it starts `k` hours after 01:00 summer time (23:00 UTC of the 26th). -/
def autumnHour (total : ℚ) (k : Int) : tibberPrice :=
  ⟨total, ⟨(1729983600 + 3600 * k) * 1000000000, berlinAutumn2024⟩⟩

/-- Sample window: the hours 01:00, 02:00 (summer time), 02:00, 03:00 (standard time)
of that night. -/
def autumnHours : List tibberPrice :=
  [autumnHour 0.21 0, autumnHour 0.22 1, autumnHour 0.23 2, autumnHour 0.24 3]

/-- Sample clock reading: 02:30 standard time of that night (01:30 UTC). -/
def autumnHalfPastTwo : Time := ⟨1729992600 * 1000000000, berlinAutumn2024⟩

/-! ## Helper lemmas: the partition -/

theorem before_or_after_of_ne (now : Time) (p : tibberPrice) (h : p.StartsAt.ns ≠ now.ns) :
    (p.StartsAt.Before now = true ∧ p.StartsAt.After now = false) ∨
    (p.StartsAt.Before now = false ∧ p.StartsAt.After now = true) := by
  simp only [Time.Before, Time.After, decide_eq_true_eq, decide_eq_false_iff_not]
  omega

theorem foldlM_splitStep_ok (now : Time) (prices : List tibberPrice) :
    ∀ acc : List tibberPrice × List tibberPrice,
      (∀ p ∈ prices, p.StartsAt.ns ≠ now.ns) →
      List.foldlM (splitStep now) acc prices =
        Except.ok (acc.1 ++ prices.filter (fun p => p.StartsAt.Before now),
                   acc.2 ++ prices.filter (fun p => p.StartsAt.After now)) := by
  induction prices with
  | nil => intro acc _; simp [pure, Except.pure]
  | cons p ps ih =>
    intro acc h
    have hp : p.StartsAt.ns ≠ now.ns := h p (List.mem_cons_self _ _)
    have hps : ∀ q ∈ ps, q.StartsAt.ns ≠ now.ns := fun q hq => h q (List.mem_cons_of_mem _ hq)
    rw [List.foldlM_cons]
    rcases before_or_after_of_ne now p hp with ⟨hb, ha⟩ | ⟨hb, ha⟩
    · simp [splitStep, hb, ha, bind, Except.bind, ih _ hps]
    · simp [splitStep, hb, ha, bind, Except.bind, ih _ hps]

theorem foldlM_splitStep_error (now : Time) (prices : List tibberPrice) :
    ∀ acc : List tibberPrice × List tibberPrice,
      (∃ p ∈ prices, p.StartsAt.ns = now.ns) →
      ∃ p ∈ prices, p.StartsAt.ns = now.ns ∧
        List.foldlM (splitStep now) acc prices = Except.error (Fatal.cantPlace p) := by
  induction prices with
  | nil => intro acc h; simp at h
  | cons p ps ih =>
    intro acc h
    rw [List.foldlM_cons]
    by_cases hp : p.StartsAt.ns = now.ns
    · refine ⟨p, List.mem_cons_self _ _, hp, ?_⟩
      simp [splitStep, Time.Before, Time.After, hp, bind, Except.bind]
    · have hps : ∃ q ∈ ps, q.StartsAt.ns = now.ns := by
        obtain ⟨q, hq, hqe⟩ := h
        rcases List.mem_cons.mp hq with rfl | hq
        · exact absurd hqe hp
        · exact ⟨q, hq, hqe⟩
      rcases before_or_after_of_ne now p hp with ⟨hb, ha⟩ | ⟨hb, ha⟩
      · obtain ⟨q, hq, hqe, hf⟩ := ih (acc.1 ++ [p], acc.2) hps
        exact ⟨q, List.mem_cons_of_mem _ hq, hqe, by simp [splitStep, hb, bind, Except.bind, hf]⟩
      · obtain ⟨q, hq, hqe, hf⟩ := ih (acc.1, acc.2 ++ [p]) hps
        exact ⟨q, List.mem_cons_of_mem _ hq, hqe, by simp [splitStep, hb, ha, bind, Except.bind, hf]⟩

theorem splitPrices_ok (now : Time) (prices : List tibberPrice)
    (h : ∀ p ∈ prices, p.StartsAt.ns ≠ now.ns) :
    splitPrices now prices =
      Except.ok (prices.filter (fun p => p.StartsAt.Before now),
                 prices.filter (fun p => p.StartsAt.After now)) := by
  simpa [splitPrices] using foldlM_splitStep_ok now prices ([], []) h

theorem splitPrices_error (now : Time) (prices : List tibberPrice)
    (h : ∃ p ∈ prices, p.StartsAt.ns = now.ns) :
    ∃ p ∈ prices, p.StartsAt.ns = now.ns ∧
      splitPrices now prices = Except.error (Fatal.cantPlace p) :=
  foldlM_splitStep_error now prices ([], []) h

/-- The last four historic records (all of them when fewer) followed by every
upcoming record: what `updateKnowPrices` computes on a window free of a record at
the clock reading. -/
theorem updateKnowPrices_ok (now : Time) (prices : List tibberPrice)
    (h : ∀ p ∈ prices, p.StartsAt.ns ≠ now.ns) :
    updateKnowPrices now prices =
      Except.ok
        ((prices.filter (fun p => p.StartsAt.Before now)).drop
            ((prices.filter (fun p => p.StartsAt.Before now)).length - 4) ++
          prices.filter (fun p => p.StartsAt.After now)) := by
  unfold updateKnowPrices
  by_cases h0 : prices.length = 0
  · have : prices = [] := List.length_eq_zero.mp h0
    subst this
    simp
  · rw [if_neg h0, splitPrices_ok now prices h]
    simp only []
    split
    · rfl
    · rename_i h4
      have : (prices.filter (fun p => p.StartsAt.Before now)).length - 4 = 0 := by omega
      rw [this, List.drop_zero]

theorem lastFour_eq_drop (l : List tibberPrice) : lastFour l = l.drop (l.length - 4) := by
  unfold lastFour
  rw [← List.rtake_eq_reverse_take_reverse]
  rfl

theorem hourly_ne_halfPast (first h : Int) (n : Nat) :
    ∀ p ∈ hourly first n, p.StartsAt.Equal (halfPast h) = false := by
  intro p hp
  simp only [hourly, List.mem_map, List.mem_range] at hp
  obtain ⟨i, _, rfl⟩ := hp
  simp only [Time.Equal, halfPast, hourNs, decide_eq_false_iff_not]
  omega

theorem hourly_ne_nil (first : Int) (n : Nat) (h : 0 < n) : hourly first n ≠ [] := by
  intro hnil
  have hl : (hourly first n).length = 0 := by rw [hnil]; rfl
  have hn : (hourly first n).length = n := by simp [hourly]
  omega

theorem ne_of_Equal_false (now : Time) (prices : List tibberPrice)
    (h : ∀ p ∈ prices, p.StartsAt.Equal now = false) :
    ∀ p ∈ prices, p.StartsAt.ns ≠ now.ns := by
  intro p hp
  simpa [Time.Equal] using h p hp

/-! ## The claims -/

/-- C1: on a non-empty fetched sequence with no record starting exactly at the clock
reading, `updateKnowPrices` succeeds with a window holding at most 4 records that
start before the reading, and of length `min 4 historicCount + upcomingCount`; so
2 historic and 30 upcoming records give 32, and 6 historic and 30 upcoming give 34. -/
theorem updateKnowPrices_window_size (now : Time) (prices : List tibberPrice)
    (_hne : prices ≠ []) (hnow : ∀ p ∈ prices, p.StartsAt.Equal now = false) :
    ∃ window, updateKnowPrices now prices = Except.ok window ∧
      (window.filter (fun p => p.StartsAt.Before now)).length ≤ 4 ∧
      window.length = min 4 (historicCount now prices) + upcomingCount now prices ∧
      (historicCount now prices = 2 → upcomingCount now prices = 30 → window.length = 32) ∧
      (historicCount now prices = 6 → upcomingCount now prices = 30 → window.length = 34) := by
  have hlen : ((prices.filter (fun p => p.StartsAt.Before now)).drop
            ((prices.filter (fun p => p.StartsAt.Before now)).length - 4) ++
          prices.filter (fun p => p.StartsAt.After now)).length =
      min 4 (historicCount now prices) + upcomingCount now prices := by
    simp only [List.length_append, List.length_drop, historicCount, upcomingCount,
      List.countP_eq_length_filter]
    omega
  refine ⟨_, updateKnowPrices_ok now prices (ne_of_Equal_false now prices hnow), ?_, hlen, ?_, ?_⟩
  · rw [List.filter_append, List.length_append]
    have h1 : ((prices.filter (fun p => p.StartsAt.Before now)).drop
        ((prices.filter (fun p => p.StartsAt.Before now)).length - 4)).filter
          (fun p => p.StartsAt.Before now) =
        (prices.filter (fun p => p.StartsAt.Before now)).drop
          ((prices.filter (fun p => p.StartsAt.Before now)).length - 4) := by
      rw [List.filter_eq_self]
      intro a ha
      have := List.mem_of_mem_drop ha
      exact (List.mem_filter.mp this).2
    have h2 : (prices.filter (fun p => p.StartsAt.After now)).filter
        (fun p => p.StartsAt.Before now) = [] := by
      rw [List.filter_eq_nil_iff]
      intro a ha
      have := (List.mem_filter.mp ha).2
      simp only [Time.After, Time.Before, decide_eq_true_eq] at this ⊢
      omega
    rw [h1, h2, List.length_drop]
    simp only [List.length_nil]
    omega
  · intro a b; rw [hlen, a, b]; rfl
  · intro a b; rw [hlen, a, b]; rfl

/-- Witness of C1: 6 elapsed hours and 30 coming hours leave a window of 34 records,
which are the last 34 of the 36; 2 elapsed hours and 30 coming hours are kept whole. -/
theorem updateKnowPrices_window_size_witness :
    hourly 100 36 ≠ [] ∧
    (∀ p ∈ hourly 100 36, p.StartsAt.Equal (halfPast 105) = false) ∧
    historicCount (halfPast 105) (hourly 100 36) = 6 ∧
    upcomingCount (halfPast 105) (hourly 100 36) = 30 ∧
    updateKnowPrices (halfPast 105) (hourly 100 36) = Except.ok (hourly 102 34) ∧
    historicCount (halfPast 101) (hourly 100 32) = 2 ∧
    upcomingCount (halfPast 101) (hourly 100 32) = 30 ∧
    updateKnowPrices (halfPast 101) (hourly 100 32) = Except.ok (hourly 100 32) ∧
    ∃ window, updateKnowPrices (halfPast 105) (hourly 100 36) = Except.ok window ∧
      (window.filter (fun p => p.StartsAt.Before (halfPast 105))).length ≤ 4 ∧
      window.length = min 4 (historicCount (halfPast 105) (hourly 100 36)) +
        upcomingCount (halfPast 105) (hourly 100 36) ∧
      (historicCount (halfPast 105) (hourly 100 36) = 2 →
        upcomingCount (halfPast 105) (hourly 100 36) = 30 → window.length = 32) ∧
      (historicCount (halfPast 105) (hourly 100 36) = 6 →
        upcomingCount (halfPast 105) (hourly 100 36) = 30 → window.length = 34) :=
  ⟨hourly_ne_nil 100 36 (by decide), hourly_ne_halfPast 100 105 36, by decide, by decide,
    rfl, by decide, by decide, rfl,
    updateKnowPrices_window_size (halfPast 105) (hourly 100 36)
      (hourly_ne_nil 100 36 (by decide)) (hourly_ne_halfPast 100 105 36)⟩

/-- C2: on a non-empty fetched sequence with no record starting exactly at the clock
reading, the window of `updateKnowPrices` is the last four (or all, if fewer) of the
records starting before the reading, in input order, followed by all the records
starting after it, in input order; every upcoming record is kept, once, and each
part is a subsequence of the input. -/
theorem updateKnowPrices_eq_lastFour_append (now : Time) (prices : List tibberPrice)
    (_hne : prices ≠ []) (hnow : ∀ p ∈ prices, p.StartsAt.Equal now = false) :
    updateKnowPrices now prices =
      Except.ok (lastFour (prices.filter (fun p => p.StartsAt.Before now)) ++
        prices.filter (fun p => p.StartsAt.After now)) ∧
    (lastFour (prices.filter (fun p => p.StartsAt.Before now)) ++
        prices.filter (fun p => p.StartsAt.After now)).filter
          (fun p => p.StartsAt.After now) =
      prices.filter (fun p => p.StartsAt.After now) ∧
    List.Sublist (lastFour (prices.filter (fun p => p.StartsAt.Before now))) prices ∧
    List.Sublist (prices.filter (fun p => p.StartsAt.After now)) prices := by
  refine ⟨?_, ?_, ?_, List.filter_sublist _⟩
  · rw [lastFour_eq_drop]
    exact updateKnowPrices_ok now prices (ne_of_Equal_false now prices hnow)
  · rw [lastFour_eq_drop, List.filter_append, List.filter_filter]
    have h1 : ((prices.filter (fun p => p.StartsAt.Before now)).drop
        ((prices.filter (fun p => p.StartsAt.Before now)).length - 4)).filter
          (fun p => p.StartsAt.After now) = [] := by
      rw [List.filter_eq_nil_iff]
      intro a ha
      have := (List.mem_filter.mp (List.mem_of_mem_drop ha)).2
      simp only [Time.After, Time.Before, decide_eq_true_eq] at this ⊢
      omega
    rw [h1]
    simp
  · rw [lastFour_eq_drop]
    exact (List.drop_sublist _ _).trans (List.filter_sublist _)

/-- Witness of C2: 6 elapsed hours and 3 coming hours. -/
theorem updateKnowPrices_eq_lastFour_append_witness :
    hourly 200 9 ≠ [] ∧
    (∀ p ∈ hourly 200 9, p.StartsAt.Equal (halfPast 205) = false) ∧
    updateKnowPrices (halfPast 205) (hourly 200 9) = Except.ok (hourly 202 7) ∧
    (updateKnowPrices (halfPast 205) (hourly 200 9) =
      Except.ok (lastFour ((hourly 200 9).filter (fun p => p.StartsAt.Before (halfPast 205))) ++
        (hourly 200 9).filter (fun p => p.StartsAt.After (halfPast 205))) ∧
    (lastFour ((hourly 200 9).filter (fun p => p.StartsAt.Before (halfPast 205))) ++
        (hourly 200 9).filter (fun p => p.StartsAt.After (halfPast 205))).filter
          (fun p => p.StartsAt.After (halfPast 205)) =
      (hourly 200 9).filter (fun p => p.StartsAt.After (halfPast 205)) ∧
    List.Sublist (lastFour ((hourly 200 9).filter (fun p => p.StartsAt.Before (halfPast 205))))
      (hourly 200 9) ∧
    List.Sublist ((hourly 200 9).filter (fun p => p.StartsAt.After (halfPast 205)))
      (hourly 200 9)) :=
  ⟨hourly_ne_nil 200 9 (by decide), hourly_ne_halfPast 200 205 9, rfl,
    updateKnowPrices_eq_lastFour_append (halfPast 205) (hourly 200 9)
      (hourly_ne_nil 200 9 (by decide)) (hourly_ne_halfPast 200 205 9)⟩

/-- C3 fails as stated: a tick whose fetch is empty, started from a window of one
record, ends with the empty window, not with the window it started from. -/
theorem tick_empty_fetch_drops_window :
    tick (halfPast 300) (Except.ok []) (hourly 300 1) = Except.ok [] ∧
    ¬ (tick (halfPast 300) (Except.ok []) (hourly 300 1) = Except.ok (hourly 300 1)) := by
  refine ⟨rfl, ?_⟩
  intro h
  have hl : ([] : List tibberPrice) = hourly 300 1 := by
    have h2 : tick (halfPast 300) (Except.ok []) (hourly 300 1) = Except.ok [] := rfl
    rw [h2] at h
    exact Except.ok.inj h
  exact hourly_ne_nil 300 1 (by decide) hl.symm

/-- C3, amended: after a tick whose fetch is empty the window is empty, whatever it
was before, because `fetchPrices` stores the fetched sequence before
`updateKnowPrices` runs; `updateKnowPrices` leaves the empty window as it is; hence
the window after the tick equals the window before it exactly when that was empty. -/
theorem tick_empty_fetch (now : Time) (prior : List tibberPrice) :
    tick now (Except.ok []) prior = Except.ok [] ∧
    updateKnowPrices now [] = Except.ok [] ∧
    (tick now (Except.ok []) prior = Except.ok prior ↔ prior = []) := by
  have h : tick now (Except.ok []) prior = Except.ok [] := rfl
  refine ⟨h, rfl, ?_⟩
  rw [h]
  constructor
  · intro h2; exact (Except.ok.inj h2).symm
  · intro h2; rw [h2]

/-- C4: at one clock reading, `splitPrices` ends in the fatal "can't place" outcome
if and only if some record starts exactly at the reading; every fatal outcome names
such a record of the input; if there is none, the split succeeds with the records
before and after the reading; a successful split holds no record at the reading; and
on a non-empty window `updateKnowPrices` is fatal in exactly the same case. -/
theorem splitPrices_fatal_iff (now : Time) (prices : List tibberPrice) :
    ((∃ p, splitPrices now prices = Except.error (Fatal.cantPlace p)) ↔
      ∃ p ∈ prices, p.StartsAt.Equal now = true) ∧
    (∀ e, splitPrices now prices = Except.error e →
      ∃ p ∈ prices, p.StartsAt.Equal now = true ∧ e = Fatal.cantPlace p) ∧
    ((∀ p ∈ prices, p.StartsAt.Equal now = false) →
      splitPrices now prices =
        Except.ok (prices.filter (fun p => p.StartsAt.Before now),
                   prices.filter (fun p => p.StartsAt.After now))) ∧
    (∀ historic upcoming, splitPrices now prices = Except.ok (historic, upcoming) →
      (∀ p ∈ prices, p.StartsAt.Equal now = false) ∧
      historic = prices.filter (fun p => p.StartsAt.Before now) ∧
      upcoming = prices.filter (fun p => p.StartsAt.After now)) ∧
    (prices ≠ [] →
      ((∃ p, updateKnowPrices now prices = Except.error (Fatal.cantPlace p)) ↔
        ∃ p ∈ prices, p.StartsAt.Equal now = true)) := by
  by_cases hex : ∃ p ∈ prices, p.StartsAt.ns = now.ns
  · obtain ⟨q, hq, hqe, hf⟩ := splitPrices_error now prices hex
    have hqE : q.StartsAt.Equal now = true := by simp [Time.Equal, hqe]
    refine ⟨⟨fun _ => ⟨q, hq, hqE⟩, fun _ => ⟨q, hf⟩⟩, ?_, ?_, ?_, ?_⟩
    · intro e he
      rw [hf] at he
      exact ⟨q, hq, hqE, (Except.error.inj he).symm⟩
    · intro hall
      have := hall q hq
      rw [hqE] at this
      exact absurd this (by decide)
    · intro historic upcoming hok
      rw [hf] at hok
      cases hok
    · intro hne
      refine ⟨fun _ => ⟨q, hq, hqE⟩, fun _ => ⟨q, ?_⟩⟩
      unfold updateKnowPrices
      have h0 : ¬ prices.length = 0 := fun h => hne (List.length_eq_zero.mp h)
      rw [if_neg h0, hf]
  · have hall : ∀ p ∈ prices, p.StartsAt.ns ≠ now.ns := fun p hp he => hex ⟨p, hp, he⟩
    have hok := splitPrices_ok now prices hall
    have hnone : ¬ ∃ p ∈ prices, p.StartsAt.Equal now = true := by
      rintro ⟨p, hp, he⟩
      exact hall p hp (by simpa [Time.Equal] using he)
    refine ⟨⟨?_, fun h => absurd h hnone⟩, ?_, fun _ => hok, ?_, ?_⟩
    · rintro ⟨p, hp⟩
      rw [hok] at hp
      cases hp
    · intro e he
      rw [hok] at he
      cases he
    · intro historic upcoming h2
      rw [hok] at h2
      have h3 := Except.ok.inj h2
      refine ⟨?_, (congrArg Prod.fst h3).symm, (congrArg Prod.snd h3).symm⟩
      intro p hp
      simpa [Time.Equal] using hall p hp
    · intro _
      refine ⟨?_, fun h => absurd h hnone⟩
      rintro ⟨p, hp⟩
      rw [updateKnowPrices_ok now prices hall] at hp
      cases hp

theorem isCurrent_eq_true_iff (now : Time) (r : tibberPrice) :
    isCurrent now r = true ↔ r.StartsAt.Day = now.Day ∧ r.StartsAt.Hour = now.Hour := by
  simp [isCurrent]

theorem sameClockHour_eq_true_iff (now : Time) (r : tibberPrice) :
    sameClockHour r.StartsAt now = true ↔
      r.StartsAt.Year = now.Year ∧ r.StartsAt.Month = now.Month ∧
        isCurrent now r = true := by
  simp [isCurrent, sameClockHour, and_assoc]

/-- C5 fails as stated: a record of 15 January 10:00 passes the is-current test on
15 February at 10:30 (same location), although the two are in different months and
truncate to different hours. -/
theorem isCurrent_ignores_month :
    january15.StartsAt.loc = february15.loc ∧
    isCurrent february15 january15 = true ∧
    january15.StartsAt.Month = 1 ∧ february15.Month = 2 ∧
    sameClockHour january15.StartsAt february15 = false ∧
    truncHour january15.StartsAt ≠ truncHour february15 :=
  ⟨rfl, by decide⟩

/-- C5, amended: the is-current test is true if and only if the record's start and
the clock reading have the same day of the month and the same hour of the day; year
and month are not compared, so the test holds whenever both truncate to the same
clock hour, and it implies that only when year and month agree as well. -/
theorem isCurrent_iff_day_and_hour (now : Time) (r : tibberPrice) :
    (isCurrent now r = true ↔
      r.StartsAt.Day = now.Day ∧ r.StartsAt.Hour = now.Hour) ∧
    (sameClockHour r.StartsAt now = true ↔
      r.StartsAt.Year = now.Year ∧ r.StartsAt.Month = now.Month ∧
        isCurrent now r = true) :=
  ⟨isCurrent_eq_true_iff now r, sameClockHour_eq_true_iff now r⟩

/-- C6 fails as stated: when summer time ends, the record of 02:00 and the clock at
02:30 are in the same clock hour of the same day, and one hour later the clock reads
02:30 again, so the test on the same record is still true. -/
theorem isCurrent_true_one_hour_later :
    autumnRecord.StartsAt.loc = autumnNow.loc ∧
    sameClockHour autumnRecord.StartsAt autumnNow = true ∧
    isCurrent autumnNow autumnRecord = true ∧
    (autumnNow.Add hourNs).ns = autumnNow.ns + 3600 * 1000000000 ∧
    isCurrent (autumnNow.Add hourNs) autumnRecord = true :=
  ⟨rfl, by decide⟩

/-- C6, amended: for a record and a clock reading in the same clock hour of the same
calendar day the is-current test is true; and it is false for the reading one hour
later provided the UTC offset of the clock's location is the same at both readings
(always so in a location with a constant offset). -/
theorem isCurrent_same_hour_then_next (now : Time) (r : tibberPrice)
    (hsame : sameClockHour r.StartsAt now = true)
    (hoff : now.loc.offset (now.Add hourNs).unix = now.loc.offset now.unix) :
    isCurrent now r = true ∧ isCurrent (now.Add hourNs) r = false := by
  have hcur : isCurrent now r = true :=
    ((sameClockHour_eq_true_iff now r).mp hsame).2.2
  refine ⟨hcur, ?_⟩
  have hh : r.StartsAt.Hour = now.Hour := ((isCurrent_eq_true_iff now r).mp hcur).2
  have hu : (now.Add hourNs).unix = now.unix + 3600 := by
    simp only [Time.Add, Time.unix, hourNs]
    omega
  have hw : (now.Add hourNs).wall = now.wall + 3600 := by
    have hl : (now.Add hourNs).loc = now.loc := rfl
    unfold Time.wall
    rw [hl, hoff, hu]
    ring
  have hne : (now.Add hourNs).Hour ≠ now.Hour := by
    unfold Time.Hour
    rw [hw]
    omega
  have : ¬ (isCurrent (now.Add hourNs) r = true) := by
    intro hc
    have := ((isCurrent_eq_true_iff (now.Add hourNs) r).mp hc).2
    exact hne (this.symm.trans hh)
  simpa using this

/-- Witness of C6: a record of hour 400 and the clock at half past, UTC. -/
theorem isCurrent_same_hour_then_next_witness :
    sameClockHour (⟨0.25, ⟨400 * hourNs, Location.utc⟩⟩ : tibberPrice).StartsAt (halfPast 400) = true ∧
    (halfPast 400).loc.offset ((halfPast 400).Add hourNs).unix =
      (halfPast 400).loc.offset (halfPast 400).unix ∧
    isCurrent (halfPast 400) ⟨0.25, ⟨400 * hourNs, Location.utc⟩⟩ = true ∧
    isCurrent ((halfPast 400).Add hourNs) ⟨0.25, ⟨400 * hourNs, Location.utc⟩⟩ = false :=
  ⟨by decide, by decide,
    isCurrent_same_hour_then_next (halfPast 400) ⟨0.25, ⟨400 * hourNs, Location.utc⟩⟩
      (by decide) (by decide)⟩

/-! ### `currentPrice` -/

theorem currentPrice_error_of_none (now : Time) (prices : List tibberPrice)
    (h : ∀ p ∈ prices, isCurrent now p = false) :
    currentPrice now prices = Except.error "could not find current price" := by
  induction prices with
  | nil => rfl
  | cons p ps ih =>
    have hp : isCurrent now p = false := h p (List.mem_cons_self _ _)
    simp only [currentPrice, hp]
    exact ih (fun q hq => h q (List.mem_cons_of_mem _ hq))

theorem currentPrice_ok_first (now : Time) (prices : List tibberPrice) :
    ∀ (i : Nat) (hi : i < prices.length), isCurrent now prices[i] = true →
      (∀ (j : Nat) (hj : j < i), isCurrent now (prices[j]) = false) →
      currentPrice now prices = Except.ok prices[i] := by
  induction prices with
  | nil => intro i hi; simp at hi
  | cons p ps ih =>
    intro i hi hcur hearlier
    cases i with
    | zero =>
      have hp : isCurrent now p = true := hcur
      simp [currentPrice, hp]
    | succ k =>
      have hp : isCurrent now p = false := hearlier 0 (Nat.succ_pos k)
      have hk : k < ps.length := by simpa using hi
      simp only [currentPrice, hp, List.getElem_cons_succ]
      refine ih k hk hcur ?_
      intro j hj
      exact hearlier (j + 1) (Nat.succ_lt_succ hj)

theorem currentPrice_ok_inv (now : Time) (prices : List tibberPrice) :
    ∀ r, currentPrice now prices = Except.ok r →
      ∃ (i : Nat) (hi : i < prices.length), prices[i] = r ∧ isCurrent now prices[i] = true ∧
        ∀ (j : Nat) (hj : j < i), isCurrent now (prices[j]) = false := by
  induction prices with
  | nil => intro r h; simp [currentPrice] at h
  | cons p ps ih =>
    intro r h
    by_cases hp : isCurrent now p = true
    · simp only [currentPrice, hp, if_true] at h
      refine ⟨0, by simp, ?_, hp, ?_⟩
      · exact Except.ok.inj h
      · intro j hj; omega
    · have hpf : isCurrent now p = false := by simpa using hp
      simp only [currentPrice, hpf] at h
      obtain ⟨i, hi, hr, hc, hearlier⟩ := ih r h
      refine ⟨i + 1, by simpa using hi, by simpa using hr, by simpa using hc, ?_⟩
      intro j hj
      cases j with
      | zero => simpa using hpf
      | succ k =>
        have := hearlier k (by omega)
        simpa using this

theorem currentPrice_none_of_error (now : Time) (prices : List tibberPrice) :
    ∀ e, currentPrice now prices = Except.error e →
      e = "could not find current price" ∧ ∀ p ∈ prices, isCurrent now p = false := by
  induction prices with
  | nil =>
    intro e h
    simp only [currentPrice] at h
    exact ⟨(Except.error.inj h).symm, by simp⟩
  | cons p ps ih =>
    intro e h
    by_cases hp : isCurrent now p = true
    · simp [currentPrice, hp] at h
    · have hpf : isCurrent now p = false := by simpa using hp
      simp only [currentPrice, hpf] at h
      obtain ⟨he, hall⟩ := ih e h
      refine ⟨he, ?_⟩
      intro q hq
      rcases List.mem_cons.mp hq with rfl | hq
      · exact hpf
      · exact hall q hq

/-- C7: `currentPrice` returns the record at the least index passing the is-current
test (every earlier record fails it); it returns the error "could not find current
price" if and only if no record of the window passes the test, and this is its only
error; on the empty window it returns that error. -/
theorem currentPrice_first_current (now : Time) (prices : List tibberPrice) :
    (∀ (i : Nat) (hi : i < prices.length), isCurrent now prices[i] = true →
      (∀ (j : Nat) (hj : j < i), isCurrent now (prices[j]) = false) →
      currentPrice now prices = Except.ok prices[i]) ∧
    (∀ r, currentPrice now prices = Except.ok r →
      ∃ (i : Nat) (hi : i < prices.length), prices[i] = r ∧ isCurrent now prices[i] = true ∧
        ∀ (j : Nat) (hj : j < i), isCurrent now (prices[j]) = false) ∧
    (currentPrice now prices = Except.error "could not find current price" ↔
      ∀ p ∈ prices, isCurrent now p = false) ∧
    (∀ e, currentPrice now prices = Except.error e → e = "could not find current price") ∧
    currentPrice now [] = Except.error "could not find current price" :=
  ⟨currentPrice_ok_first now prices, currentPrice_ok_inv now prices,
    ⟨fun h => (currentPrice_none_of_error now prices _ h).2,
      currentPrice_error_of_none now prices⟩,
    fun e h => (currentPrice_none_of_error now prices e h).1, rfl⟩

/-! ### Binary64 rounding and the bar heights of the sample window -/

theorem roundHalfEven_eq (x : ℚ) (m : Int) (h : |x - (m : ℚ)| < 1 / 2) :
    roundHalfEven x = m := by
  rw [abs_lt] at h
  unfold roundHalfEven
  by_cases hx : (m : ℚ) ≤ x
  · have hf : ⌊x⌋ = m := by
      rw [Int.floor_eq_iff]
      constructor
      · exact hx
      · linarith
    rw [hf, if_pos (by linarith)]
  · have hf : ⌊x⌋ = m - 1 := by
      rw [Int.floor_eq_iff]
      push_cast
      constructor <;> linarith
    have h1 : ¬ (x - ((m - 1 : Int) : ℚ) < 1 / 2) := by
      push_cast; linarith
    have h2 : 1 / 2 < x - ((m - 1 : Int) : ℚ) := by
      push_cast; linarith
    rw [hf, if_neg h1, if_pos h2]
    ring

theorem round64_eq (q : ℚ) (e m : Int) (hq : 0 < |q|)
    (hlo : (2 : ℚ) ^ (e + 52) ≤ |q|) (hhi : |q| < (2 : ℚ) ^ (e + 52 + 1))
    (he : -1074 ≤ e) (hm : |q / (2 : ℚ) ^ e - (m : ℚ)| < 1 / 2) :
    round64 q = (m : ℚ) * (2 : ℚ) ^ e := by
  have hq0 : q ≠ 0 := by
    intro h; rw [h] at hq; simp at hq
  have hlog : Int.log 2 |q| = e + 52 := by
    have h1 : e + 52 ≤ Int.log 2 |q| := by
      rw [← Int.zpow_le_iff_le_log (by norm_num) hq]
      exact_mod_cast hlo
    have h2 : Int.log 2 |q| < e + 52 + 1 := by
      rw [← Int.lt_zpow_iff_log_lt (by norm_num) hq]
      exact_mod_cast hhi
    omega
  unfold round64
  rw [if_neg hq0]
  simp only [hlog]
  have hmax : max (e + 52) (-1022) - 52 = e := by
    rw [max_eq_left (by omega)]; ring
  rw [hmax, roundHalfEven_eq _ m hm]

theorem F64.round_fin (q r : ℚ) (h : round64 q = r)
    (hr : -(2 : ℚ) ^ (1024 : Nat) < r ∧ r < (2 : ℚ) ^ (1024 : Nat)) :
    F64.round (F64.fin q) = F64.fin r := by
  simp only [F64.round]
  rw [h, if_neg (not_le.mpr hr.2), if_neg (not_le.mpr hr.1)]

theorem round64_tenth : round64 0.10 = 7205759403792794 * (2 : ℚ) ^ (-56 : Int) := by
  apply round64_eq <;> norm_num [abs_of_pos, abs_lt]

theorem round64_three_tenths : round64 0.30 = 5404319552844595 * (2 : ℚ) ^ (-54 : Int) := by
  apply round64_eq <;> norm_num [abs_of_pos, abs_lt]

theorem round64_fifth : round64 0.20 = 7205759403792794 * (2 : ℚ) ^ (-55 : Int) := by
  apply round64_eq <;> norm_num [abs_of_pos, abs_lt]


theorem F64.mul_fin (a b : ℚ) : F64.mul (F64.fin a) (F64.fin b) = F64.fin (a * b) := rfl

theorem F64.add_fin (a b : ℚ) : F64.add (F64.fin a) (F64.fin b) = F64.fin (a + b) := rfl

theorem F64.div_fin (a b : ℚ) (hb : b ≠ 0) :
    F64.div (F64.fin a) (F64.fin b) = F64.fin (a / b) := by
  simp only [F64.div, if_neg hb]

/-- The steps of `scaledPrice` when all intermediate values are finite. -/
theorem scaledPrice_steps (mn mx : ℚ) (p : tibberPrice) (d slope x prod sum : ℚ)
    (hd : round64 (mx - mn) = d) (hd0 : d ≠ 0)
    (hslope : round64 (7 / d) = slope)
    (hx : round64 (p.Total - mn) = x)
    (hprod : round64 (slope * x) = prod)
    (hsum : round64 (1 + prod) = sum)
    (bd : -(2 : ℚ) ^ (1024 : Nat) < d ∧ d < (2 : ℚ) ^ (1024 : Nat))
    (bslope : -(2 : ℚ) ^ (1024 : Nat) < slope ∧ slope < (2 : ℚ) ^ (1024 : Nat))
    (bx : -(2 : ℚ) ^ (1024 : Nat) < x ∧ x < (2 : ℚ) ^ (1024 : Nat))
    (bprod : -(2 : ℚ) ^ (1024 : Nat) < prod ∧ prod < (2 : ℚ) ^ (1024 : Nat))
    (bsum : -(2 : ℚ) ^ (1024 : Nat) < sum ∧ sum < (2 : ℚ) ^ (1024 : Nat)) :
    scaledPrice mn mx p = F64.fin sum := by
  have h7 : round64 (1.0 * (((8 - 1 : Int)) : ℚ)) = 7 := by
    have := round64_eq (1.0 * (((8 - 1 : Int)) : ℚ)) (-50) 7881299347898368
      (by norm_num [abs_of_pos]) (by norm_num [abs_of_pos]) (by norm_num [abs_of_pos])
      (by norm_num) (by norm_num [abs_lt])
    rw [this]; norm_num
  have b7 : -(2 : ℚ) ^ (1024 : Nat) < 7 ∧ (7 : ℚ) < (2 : ℚ) ^ (1024 : Nat) := by
    constructor <;> norm_num
  unfold scaledPrice
  dsimp only
  rw [F64.mul_fin, F64.round_fin _ 7 h7 b7, F64.round_fin _ d hd bd, F64.div_fin _ _ hd0,
    F64.round_fin _ slope hslope bslope, F64.round_fin _ x hx bx, F64.mul_fin,
    F64.round_fin _ prod hprod bprod]
  have h1 : (((1 : Int)) : ℚ) = 1 := by norm_num
  rw [h1, F64.add_fin, F64.round_fin _ sum hsum bsum]

theorem round64_zero : round64 0 = 0 := by
  simp [round64]

theorem toInt_of_floor (impl : Int) (q : ℚ) (k : Int) (h0 : 0 ≤ q) (hk : ⌊q⌋ = k)
    (hlo : -(2 : Int) ^ 63 ≤ k) (hhi : k < (2 : Int) ^ 63) :
    F64.toInt impl (F64.fin q) = k := by
  simp only [F64.toInt, if_pos h0, hk, if_pos (And.intro hlo hhi)]

theorem mapToDrawingCommands_map_Y (impl : Int) (now : Time) (prices : List tibberPrice) :
    (mapToDrawingCommands impl now prices).map (fun c => c.Y) =
      prices.map (fun p =>
        wrap64 (8 - F64.toInt impl (scaledPrice (minPrice prices) (maxPrice prices) p))) := by
  unfold mapToDrawingCommands
  split_ifs with h0
  · have : prices = [] := List.length_eq_zero.mp h0
    subst this
    rfl
  · apply List.ext_getElem
    · simp
    · intro i h1 h2
      simp

theorem sampleDecoded_eq :
    sampleDecoded =
      [⟨7205759403792794 * (2 : ℚ) ^ (-56 : Int), ⟨700 * hourNs, Location.utc⟩⟩,
       ⟨5404319552844595 * (2 : ℚ) ^ (-54 : Int), ⟨701 * hourNs, Location.utc⟩⟩,
       ⟨7205759403792794 * (2 : ℚ) ^ (-55 : Int), ⟨702 * hourNs, Location.utc⟩⟩] := by
  simp only [sampleDecoded, decoded, round64_tenth, round64_three_tenths, round64_fifth]

theorem sampleDecoded_range :
    minPrice sampleDecoded = 7205759403792794 * (2 : ℚ) ^ (-56 : Int) ∧
    maxPrice sampleDecoded = 5404319552844595 * (2 : ℚ) ^ (-54 : Int) := by
  rw [sampleDecoded_eq]
  constructor <;> norm_num [minPrice, maxPrice, priceRange]

/-- Binary64 evaluation for the greatest total of the sample: the difference
0.3 - 0.1 is 0.19999999999999998, the slope 7 / 0.19999999999999998 rounds to 35,
35 · 0.19999999999999998 rounds to 7 - 2^-50, and the scaled value is 8 - 2^-50. -/
theorem scaledPrice_sample_max (t : Time) :
    scaledPrice (7205759403792794 * (2 : ℚ) ^ (-56 : Int))
      (5404319552844595 * (2 : ℚ) ^ (-54 : Int))
      ⟨5404319552844595 * (2 : ℚ) ^ (-54 : Int), t⟩ =
    F64.fin (9007199254740991 * (2 : ℚ) ^ (-50 : Int)) := by
  apply scaledPrice_steps _ _ _ (7205759403792793 * (2 : ℚ) ^ (-55 : Int))
    (4925812092436480 * (2 : ℚ) ^ (-47 : Int)) (7205759403792793 * (2 : ℚ) ^ (-55 : Int))
    (7881299347898367 * (2 : ℚ) ^ (-50 : Int))
  · apply round64_eq <;> norm_num [abs_of_pos, abs_lt]
  · norm_num
  · apply round64_eq <;> norm_num [abs_of_pos, abs_lt]
  · apply round64_eq <;> norm_num [abs_of_pos, abs_lt]
  · apply round64_eq <;> norm_num [abs_of_pos, abs_lt]
  · apply round64_eq <;> norm_num [abs_of_pos, abs_lt]
  all_goals constructor <;> norm_num

/-- Binary64 evaluation for the least total of the sample: the scaled value is 1. -/
theorem scaledPrice_sample_min (t : Time) :
    scaledPrice (7205759403792794 * (2 : ℚ) ^ (-56 : Int))
      (5404319552844595 * (2 : ℚ) ^ (-54 : Int))
      ⟨7205759403792794 * (2 : ℚ) ^ (-56 : Int), t⟩ =
    F64.fin (4503599627370496 * (2 : ℚ) ^ (-52 : Int)) := by
  apply scaledPrice_steps _ _ _ (7205759403792793 * (2 : ℚ) ^ (-55 : Int))
    (4925812092436480 * (2 : ℚ) ^ (-47 : Int)) 0 0
  · apply round64_eq <;> norm_num [abs_of_pos, abs_lt]
  · norm_num
  · apply round64_eq <;> norm_num [abs_of_pos, abs_lt]
  · simp only [sub_self, round64_zero]
  · simp only [mul_zero, round64_zero]
  · apply round64_eq <;> norm_num [abs_of_pos, abs_lt]
  all_goals constructor <;> norm_num

/-- Binary64 evaluation for the middle total of the sample: the scaled value is 4.5. -/
theorem scaledPrice_sample_mid (t : Time) :
    scaledPrice (7205759403792794 * (2 : ℚ) ^ (-56 : Int))
      (5404319552844595 * (2 : ℚ) ^ (-54 : Int))
      ⟨7205759403792794 * (2 : ℚ) ^ (-55 : Int), t⟩ =
    F64.fin (5066549580791808 * (2 : ℚ) ^ (-50 : Int)) := by
  apply scaledPrice_steps _ _ _ (7205759403792793 * (2 : ℚ) ^ (-55 : Int))
    (4925812092436480 * (2 : ℚ) ^ (-47 : Int)) (7205759403792794 * (2 : ℚ) ^ (-56 : Int))
    (7881299347898368 * (2 : ℚ) ^ (-51 : Int))
  · apply round64_eq <;> norm_num [abs_of_pos, abs_lt]
  · norm_num
  · apply round64_eq <;> norm_num [abs_of_pos, abs_lt]
  · apply round64_eq <;> norm_num [abs_of_pos, abs_lt]
  · apply round64_eq <;> norm_num [abs_of_pos, abs_lt]
  · apply round64_eq <;> norm_num [abs_of_pos, abs_lt]
  all_goals constructor <;> norm_num

/-! ### `mapPriceToColor` -/

theorem round64_quarter : round64 0.25 = 4503599627370496 * (2 : ℚ) ^ (-54 : Int) := by
  apply round64_eq <;> norm_num [abs_of_pos, abs_lt]

theorem round64_seven_twentieths :
    round64 0.35 = 6305039478318694 * (2 : ℚ) ^ (-54 : Int) := by
  apply round64_eq <;> norm_num [abs_of_pos, abs_lt]

theorem round64_two_fifths : round64 0.4 = 7205759403792794 * (2 : ℚ) ^ (-54 : Int) := by
  apply round64_eq <;> norm_num [abs_of_pos, abs_lt]

/-- The float64 constants of the ladder are in ascending order. -/
theorem thresholds_ascending :
    round64 0.20 < round64 0.25 ∧ round64 0.25 < round64 0.30 ∧
    round64 0.30 < round64 0.35 ∧ round64 0.35 < round64 0.4 := by
  rw [round64_fifth, round64_quarter, round64_three_tenths, round64_seven_twentieths,
    round64_two_fifths]
  norm_num

theorem mapPriceToColor_cases (now : Time) (r : tibberPrice) (h : isCurrent now r = false) :
    (r.Total ≤ round64 0.20 ∧ mapPriceToColor now r = "#6464ff") ∨
    (round64 0.20 < r.Total ∧ r.Total < round64 0.25 ∧ mapPriceToColor now r = "#00ff00") ∨
    (round64 0.25 ≤ r.Total ∧ r.Total < round64 0.30 ∧ mapPriceToColor now r = "#ffff00") ∨
    (round64 0.30 ≤ r.Total ∧ r.Total < round64 0.35 ∧ mapPriceToColor now r = "#ff8000") ∨
    (round64 0.35 ≤ r.Total ∧ r.Total < round64 0.4 ∧ mapPriceToColor now r = "#ff0000") ∨
    (round64 0.4 ≤ r.Total ∧ mapPriceToColor now r = "#800080") := by
  simp only [mapPriceToColor, h, Bool.false_eq_true, if_false]
  by_cases h1 : r.Total ≤ round64 0.20
  · left; exact ⟨h1, by rw [if_pos h1]⟩
  right
  rw [if_neg h1]
  by_cases h2 : r.Total < round64 0.25
  · left; exact ⟨not_le.mp h1, h2, by rw [if_pos h2]⟩
  right
  rw [if_neg h2]
  by_cases h3 : r.Total < round64 0.30
  · left; exact ⟨not_lt.mp h2, h3, by rw [if_pos h3]⟩
  right
  rw [if_neg h3]
  by_cases h4 : r.Total < round64 0.35
  · left; exact ⟨not_lt.mp h3, h4, by rw [if_pos h4]⟩
  right
  rw [if_neg h4]
  by_cases h5 : r.Total < round64 0.4
  · left; exact ⟨not_lt.mp h4, h5, by rw [if_pos h5]⟩
  right
  rw [if_neg h5]
  exact ⟨not_lt.mp h5, rfl⟩

theorem round64_sample_totals :
    round64 0.10 ≤ round64 0.20 ∧
    (round64 0.20 < round64 0.22 ∧ round64 0.22 < round64 0.25) ∧
    (round64 0.25 ≤ round64 0.28 ∧ round64 0.28 < round64 0.30) ∧
    (round64 0.30 ≤ round64 0.32 ∧ round64 0.32 < round64 0.35) ∧
    (round64 0.35 ≤ round64 0.38 ∧ round64 0.38 < round64 0.4) ∧
    round64 0.4 ≤ round64 0.50 := by
  have e22 : round64 0.22 = 7926335344172073 * (2 : ℚ) ^ (-55 : Int) := by
    apply round64_eq <;> norm_num [abs_of_pos, abs_lt]
  have e28 : round64 0.28 = 5044031582654956 * (2 : ℚ) ^ (-54 : Int) := by
    apply round64_eq <;> norm_num [abs_of_pos, abs_lt]
  have e32 : round64 0.32 = 5764607523034235 * (2 : ℚ) ^ (-54 : Int) := by
    apply round64_eq <;> norm_num [abs_of_pos, abs_lt]
  have e38 : round64 0.38 = 6845471433603154 * (2 : ℚ) ^ (-54 : Int) := by
    apply round64_eq <;> norm_num [abs_of_pos, abs_lt]
  have e50 : round64 0.50 = 4503599627370496 * (2 : ℚ) ^ (-53 : Int) := by
    apply round64_eq <;> norm_num [abs_of_pos, abs_lt]
  rw [round64_tenth, round64_fifth, round64_quarter, round64_three_tenths,
    round64_seven_twentieths, round64_two_fifths, e22, e28, e32, e38, e50]
  norm_num

/-- C8 fails as stated: the float64 of 0.30, which is also what the decimal
0.29999999999999999 decodes to, lies in the claim's yellow interval [0.25, 0.30), as
does that decimal; the code compares it with the constant 0.30, the same float64, finds
it not smaller, and returns orange. -/
theorem mapPriceToColor_at_float_threshold :
    isCurrent (halfPast 800) (decoded 0.29999999999999999 700) = false ∧
    (decoded 0.29999999999999999 700).Total = round64 0.30 ∧
    ((0.25 : ℚ) ≤ 0.29999999999999999 ∧ (0.29999999999999999 : ℚ) < 0.30) ∧
    ((0.25 : ℚ) ≤ (decoded 0.29999999999999999 700).Total ∧
      (decoded 0.29999999999999999 700).Total < 0.30) ∧
    mapPriceToColor (halfPast 800) (decoded 0.29999999999999999 700) = "#ff8000" ∧
    ("#ff8000" : String) ≠ "#ffff00" := by
  have hv : round64 0.29999999999999999 = 5404319552844595 * (2 : ℚ) ^ (-54 : Int) := by
    apply round64_eq <;> norm_num [abs_of_pos, abs_lt]
  have ht : (decoded 0.29999999999999999 700).Total = round64 0.30 := by
    simp only [decoded, hv, round64_three_tenths]
  have hc : isCurrent (halfPast 800) (decoded 0.29999999999999999 700) = false := by decide
  obtain ⟨o1, o2, o3, o4⟩ := thresholds_ascending
  refine ⟨hc, ht, by norm_num, ?_, ?_, by decide⟩
  · rw [ht, round64_three_tenths]; norm_num
  · simp only [mapPriceToColor, hc, ht, Bool.false_eq_true, if_false]
    rw [if_neg (by linarith), if_neg (by linarith), if_neg (lt_irrefl _), if_pos o3]

/-- The ladder read off a case distinction, for any ascending thresholds. -/
theorem ladder_of_cases (col : String) (x t1 t2 t3 t4 t5 : ℚ)
    (o1 : t1 < t2) (o2 : t2 < t3) (o3 : t3 < t4) (o4 : t4 < t5)
    (hcases : (x ≤ t1 ∧ col = "#6464ff") ∨
      (t1 < x ∧ x < t2 ∧ col = "#00ff00") ∨
      (t2 ≤ x ∧ x < t3 ∧ col = "#ffff00") ∨
      (t3 ≤ x ∧ x < t4 ∧ col = "#ff8000") ∨
      (t4 ≤ x ∧ x < t5 ∧ col = "#ff0000") ∨
      (t5 ≤ x ∧ col = "#800080")) :
    (col = "#6464ff" ↔ x ≤ t1) ∧
    (col = "#00ff00" ↔ t1 < x ∧ x < t2) ∧
    (col = "#ffff00" ↔ t2 ≤ x ∧ x < t3) ∧
    (col = "#ff8000" ↔ t3 ≤ x ∧ x < t4) ∧
    (col = "#ff0000" ↔ t4 ≤ x ∧ x < t5) ∧
    (col = "#800080" ↔ t5 ≤ x) := by
  rcases hcases with
    ⟨a, hc⟩ | ⟨a, b, hc⟩ | ⟨a, b, hc⟩ | ⟨a, b, hc⟩ | ⟨a, b, hc⟩ | ⟨a, hc⟩ <;>
  · rw [hc]
    refine ⟨?_, ?_, ?_, ?_, ?_, ?_⟩
    all_goals first
      | exact ⟨fun _ => a, fun _ => rfl⟩
      | exact ⟨fun _ => ⟨a, b⟩, fun _ => rfl⟩
      | exact ⟨fun hcd => absurd hcd (by decide),
          fun hP => by exfalso; obtain ⟨p, q⟩ := hP; linarith⟩
      | exact ⟨fun hcd => absurd hcd (by decide),
          fun hP => by exfalso; linarith⟩

/-- C8, amended: `mapPriceToColor` gives "#FFFFFF" for a current record whatever its
total; for a record that is not current, with each threshold the float64 nearest to
the decimal of the source (`round64`), it gives "#6464ff" iff total ≤ 0.20, "#00ff00"
iff 0.20 < total < 0.25, "#ffff00" iff 0.25 ≤ total < 0.30, "#ff8000" iff
0.30 ≤ total < 0.35, "#ff0000" iff 0.35 ≤ total < 0.40 and "#800080" iff
total ≥ 0.40; so the float64 totals of 0.10, 0.22, 0.28, 0.32, 0.38, 0.50 give blue,
green, yellow, orange, red, purple. -/
theorem mapPriceToColor_float_ladder (now : Time) (r : tibberPrice) :
    (isCurrent now r = true → mapPriceToColor now r = "#FFFFFF") ∧
    (isCurrent now r = false →
      (mapPriceToColor now r = "#6464ff" ↔ r.Total ≤ round64 0.20) ∧
      (mapPriceToColor now r = "#00ff00" ↔ round64 0.20 < r.Total ∧ r.Total < round64 0.25) ∧
      (mapPriceToColor now r = "#ffff00" ↔ round64 0.25 ≤ r.Total ∧ r.Total < round64 0.30) ∧
      (mapPriceToColor now r = "#ff8000" ↔ round64 0.30 ≤ r.Total ∧ r.Total < round64 0.35) ∧
      (mapPriceToColor now r = "#ff0000" ↔ round64 0.35 ≤ r.Total ∧ r.Total < round64 0.4) ∧
      (mapPriceToColor now r = "#800080" ↔ round64 0.4 ≤ r.Total) ∧
      (r.Total = round64 0.10 → mapPriceToColor now r = "#6464ff") ∧
      (r.Total = round64 0.22 → mapPriceToColor now r = "#00ff00") ∧
      (r.Total = round64 0.28 → mapPriceToColor now r = "#ffff00") ∧
      (r.Total = round64 0.32 → mapPriceToColor now r = "#ff8000") ∧
      (r.Total = round64 0.38 → mapPriceToColor now r = "#ff0000") ∧
      (r.Total = round64 0.50 → mapPriceToColor now r = "#800080")) := by
  constructor
  · intro h
    simp [mapPriceToColor, h]
  · intro h
    obtain ⟨o1, o2, o3, o4⟩ := thresholds_ascending
    obtain ⟨s1, ⟨s2, s3⟩, ⟨s4, s5⟩, ⟨s6, s7⟩, ⟨s8, s9⟩, s10⟩ := round64_sample_totals
    obtain ⟨l1, l2, l3, l4, l5, l6⟩ := ladder_of_cases (mapPriceToColor now r) r.Total
      (round64 0.20) (round64 0.25) (round64 0.30) (round64 0.35) (round64 0.4)
      o1 o2 o3 o4 (mapPriceToColor_cases now r h)
    refine ⟨l1, l2, l3, l4, l5, l6, ?_, ?_, ?_, ?_, ?_, ?_⟩
    · intro ht; rw [l1, ht]; exact s1
    · intro ht; rw [l2, ht]; exact ⟨s2, s3⟩
    · intro ht; rw [l3, ht]; exact ⟨s4, s5⟩
    · intro ht; rw [l4, ht]; exact ⟨s6, s7⟩
    · intro ht; rw [l5, ht]; exact ⟨s8, s9⟩
    · intro ht; rw [l6, ht]; exact s10

/-! ### `mapToDrawingCommands` -/

theorem priceRange_bounds (prices : List tibberPrice) :
    ∀ init : ℚ × ℚ,
      (priceRange init prices).1 ≤ init.1 ∧ init.2 ≤ (priceRange init prices).2 ∧
      ∀ p ∈ prices, (priceRange init prices).1 ≤ p.Total ∧
        p.Total ≤ (priceRange init prices).2 := by
  induction prices with
  | nil => intro init; simp [priceRange]
  | cons q qs ih =>
    intro init
    have hstep : priceRange init (q :: qs) =
        priceRange (if q.Total < init.1 then q.Total else init.1,
          if q.Total > init.2 then q.Total else init.2) qs := by
      simp [priceRange]
    rw [hstep]
    obtain ⟨h1, h2, h3⟩ := ih (if q.Total < init.1 then q.Total else init.1,
          if q.Total > init.2 then q.Total else init.2)
    have hmin : (if q.Total < init.1 then q.Total else init.1) ≤ init.1 ∧
        (if q.Total < init.1 then q.Total else init.1) ≤ q.Total := by
      split_ifs with hlt
      · exact ⟨le_of_lt hlt, le_refl _⟩
      · exact ⟨le_refl _, not_lt.mp hlt⟩
    have hmax : init.2 ≤ (if q.Total > init.2 then q.Total else init.2) ∧
        q.Total ≤ (if q.Total > init.2 then q.Total else init.2) := by
      split_ifs with hgt
      · exact ⟨le_of_lt hgt, le_refl _⟩
      · exact ⟨le_refl _, not_lt.mp hgt⟩
    refine ⟨le_trans h1 hmin.1, le_trans hmax.1 h2, ?_⟩
    intro p hp
    rcases List.mem_cons.mp hp with rfl | hp
    · exact ⟨le_trans h1 hmin.2, le_trans hmax.2 h2⟩
    · exact h3 p hp

theorem minPrice_le_maxPrice_of_mem (prices : List tibberPrice) :
    ∀ p ∈ prices, minPrice prices ≤ p.Total ∧ p.Total ≤ maxPrice prices := by
  cases prices with
  | nil => intro p hp; simp at hp
  | cons q qs =>
    intro p hp
    exact (priceRange_bounds (q :: qs) (q.Total, q.Total)).2.2 p hp

theorem scaledPrice_flat (m : ℚ) (p : tibberPrice) (hp : p.Total = m) :
    scaledPrice m m p = F64.nan := by
  have h7 : round64 (1.0 * (((8 - 1 : Int)) : ℚ)) = 7 := by
    have := round64_eq (1.0 * (((8 - 1 : Int)) : ℚ)) (-50) 7881299347898368
      (by norm_num [abs_of_pos]) (by norm_num [abs_of_pos]) (by norm_num [abs_of_pos])
      (by norm_num) (by norm_num [abs_lt])
    rw [this]; norm_num
  have b7 : -(2 : ℚ) ^ (1024 : Nat) < 7 ∧ (7 : ℚ) < (2 : ℚ) ^ (1024 : Nat) := by
    constructor <;> norm_num
  have b0 : -(2 : ℚ) ^ (1024 : Nat) < 0 ∧ (0 : ℚ) < (2 : ℚ) ^ (1024 : Nat) := by
    constructor <;> norm_num
  have hd : F64.div (F64.fin 7) (F64.fin 0) = F64.posInf := by
    simp [F64.div]
  have hm : F64.mul F64.posInf (F64.fin 0) = F64.nan := by
    simp [F64.mul]
  unfold scaledPrice
  dsimp only
  rw [F64.mul_fin, F64.round_fin _ 7 h7 b7, hp, sub_self, F64.round_fin 0 0 round64_zero b0, hd]
  have hr1 : F64.round F64.posInf = F64.posInf := rfl
  have hr2 : F64.round F64.nan = F64.nan := rfl
  rw [hr1, hm, hr2]
  have ha : F64.add (F64.fin ((1 : Int) : ℚ)) F64.nan = F64.nan := rfl
  rw [ha, hr2]

theorem mapToDrawingCommands_length (impl : Int) (now : Time) (prices : List tibberPrice) :
    (mapToDrawingCommands impl now prices).length = prices.length := by
  unfold mapToDrawingCommands
  split_ifs with h0
  · simp [h0]
  · simp

theorem mapToDrawingCommands_getElem (impl : Int) (now : Time) (prices : List tibberPrice)
    (i : Nat) (hi : i < prices.length)
    (hc : i < (mapToDrawingCommands impl now prices).length) :
    (mapToDrawingCommands impl now prices)[i] =
      { Command := "df", X := 12 + (i : Int),
        Y := wrap64 (8 - F64.toInt impl
          (scaledPrice (minPrice prices) (maxPrice prices) prices[i])),
        Width := 1, Height := 8, Color := mapPriceToColor now prices[i] } := by
  have h0 : ¬ prices.length = 0 := by omega
  simp only [mapToDrawingCommands, if_neg h0, List.getElem_mapIdx]

/-- C9 fails on the code: on a non-empty list whose totals are all equal the slope is
7 / 0 = +Inf, every scaled value is +Inf * 0 = NaN, and every bar gets
Y = 8 - int(NaN), a value the language leaves to the implementation (`impl`); one bar
per record is returned and nothing panics. -/
theorem mapToDrawingCommands_flat_Y (impl : Int) (now : Time) (prices : List tibberPrice)
    (_hne : prices ≠ []) (hflat : minPrice prices = maxPrice prices) :
    (mapToDrawingCommands impl now prices).length = prices.length ∧
    (∀ p ∈ prices, scaledPrice (minPrice prices) (maxPrice prices) p = F64.nan) ∧
    ∀ c ∈ mapToDrawingCommands impl now prices, c.Y = wrap64 (8 - impl) := by
  have hnan : ∀ p ∈ prices, scaledPrice (minPrice prices) (maxPrice prices) p = F64.nan := by
    intro p hp
    have hb := minPrice_le_maxPrice_of_mem prices p hp
    rw [← hflat]
    exact scaledPrice_flat _ p (le_antisymm (hflat ▸ hb.2) hb.1)
  refine ⟨mapToDrawingCommands_length impl now prices, hnan, ?_⟩
  intro c hc
  obtain ⟨i, hi, rfl⟩ := List.getElem_of_mem hc
  have hi2 : i < prices.length := by
    rw [mapToDrawingCommands_length] at hi; exact hi
  rw [mapToDrawingCommands_getElem impl now prices i hi2 hi]
  simp only [hnan _ (List.getElem_mem hi2), F64.toInt]

/-- Witness of C9's failure: one record of total 0.25 gives Y = -9223372036854775800
where int(NaN) is the least int64, and Y = 8 where int(NaN) is 0. -/
theorem mapToDrawingCommands_flat_Y_witness :
    [priced 0.25 500] ≠ [] ∧
    minPrice [priced 0.25 500] = maxPrice [priced 0.25 500] ∧
    (mapToDrawingCommands (-9223372036854775808) (halfPast 600) [priced 0.25 500]).map
      (fun c => c.Y) = [-9223372036854775800] ∧
    (mapToDrawingCommands 0 (halfPast 600) [priced 0.25 500]).map (fun c => c.Y) = [8] := by
  have h := fun impl => mapToDrawingCommands_flat_Y impl (halfPast 600) [priced 0.25 500]
    (List.cons_ne_nil _ _) rfl
  refine ⟨List.cons_ne_nil _ _, rfl, ?_, ?_⟩
  · have hl := (h (-9223372036854775808)).1
    have hy := (h (-9223372036854775808)).2.2
    match hm : mapToDrawingCommands (-9223372036854775808) (halfPast 600) [priced 0.25 500] with
    | [c] =>
      have := hy c (by rw [hm]; exact List.mem_singleton_self c)
      simp only [List.map, this]
      decide
    | [] => rw [hm] at hl; simp at hl
    | _ :: _ :: _ => rw [hm] at hl; simp at hl
  · have hl := (h 0).1
    have hy := (h 0).2.2
    match hm : mapToDrawingCommands 0 (halfPast 600) [priced 0.25 500] with
    | [c] =>
      have := hy c (by rw [hm]; exact List.mem_singleton_self c)
      simp only [List.map, this]
      decide
    | [] => rw [hm] at hl; simp at hl
    | _ :: _ :: _ => rw [hm] at hl; simp at hl

/-- C10: for a price list that is empty or has `minPrice ≠ maxPrice`,
`mapToDrawingCommands` returns as many commands as records (none for none), and the
command at index `i` is a "df" command with X = 12 + i, Width = 1, Height = 8 and the
colour `mapPriceToColor` gives the record at index `i`: order is kept. -/
theorem mapToDrawingCommands_shape (impl : Int) (now : Time) (prices : List tibberPrice)
    (_h : prices = [] ∨ minPrice prices ≠ maxPrice prices) :
    (mapToDrawingCommands impl now prices).length = prices.length ∧
    (prices = [] → mapToDrawingCommands impl now prices = []) ∧
    ∀ (i : Nat) (hi : i < prices.length)
      (hc : i < (mapToDrawingCommands impl now prices).length),
      (mapToDrawingCommands impl now prices)[i].Command = "df" ∧
      (mapToDrawingCommands impl now prices)[i].X = 12 + (i : Int) ∧
      (mapToDrawingCommands impl now prices)[i].Width = 1 ∧
      (mapToDrawingCommands impl now prices)[i].Height = 8 ∧
      (mapToDrawingCommands impl now prices)[i].Color = mapPriceToColor now prices[i] := by
  refine ⟨mapToDrawingCommands_length impl now prices, ?_, ?_⟩
  · intro he
    rw [he]
    rfl
  · intro i hi hc
    rw [mapToDrawingCommands_getElem impl now prices i hi hc]
    exact ⟨rfl, rfl, rfl, rfl, rfl⟩

/-- Witness of C10: totals 0.10, 0.30, 0.20 at a time when none is current. -/
theorem mapToDrawingCommands_shape_witness :
    ([priced 0.10 700, priced 0.30 701, priced 0.20 702] = [] ∨
      minPrice [priced 0.10 700, priced 0.30 701, priced 0.20 702] ≠
        maxPrice [priced 0.10 700, priced 0.30 701, priced 0.20 702]) ∧
    (mapToDrawingCommands 0 (halfPast 800)
      [priced 0.10 700, priced 0.30 701, priced 0.20 702]).length = 3 ∧
    (mapToDrawingCommands 0 (halfPast 800)
      [priced 0.10 700, priced 0.30 701, priced 0.20 702]).map
        (fun c => (c.Command, c.X, c.Width, c.Height, c.Color)) =
      [("df", 12, 1, 8, "#6464ff"), ("df", 13, 1, 8, "#ff8000"), ("df", 14, 1, 8, "#6464ff")] := by
  have hrange : minPrice [priced 0.10 700, priced 0.30 701, priced 0.20 702] ≠
      maxPrice [priced 0.10 700, priced 0.30 701, priced 0.20 702] := by
    norm_num [minPrice, maxPrice, priceRange, priced]
  have h := mapToDrawingCommands_shape 0 (halfPast 800)
    [priced 0.10 700, priced 0.30 701, priced 0.20 702] (Or.inr hrange)
  have c0 : mapPriceToColor (halfPast 800) (priced 0.10 700) = "#6464ff" := by
    have hc : isCurrent (halfPast 800) (priced 0.10 700) = false := by decide
    simp only [mapPriceToColor, hc]
    simp only [priced, round64_fifth, round64_quarter, round64_three_tenths,
      round64_seven_twentieths, round64_two_fifths]
    norm_num
  have c1 : mapPriceToColor (halfPast 800) (priced 0.30 701) = "#ff8000" := by
    have hc : isCurrent (halfPast 800) (priced 0.30 701) = false := by decide
    simp only [mapPriceToColor, hc]
    simp only [priced, round64_fifth, round64_quarter, round64_three_tenths,
      round64_seven_twentieths, round64_two_fifths]
    norm_num
  have c2 : mapPriceToColor (halfPast 800) (priced 0.20 702) = "#6464ff" := by
    have hc : isCurrent (halfPast 800) (priced 0.20 702) = false := by decide
    simp only [mapPriceToColor, hc]
    simp only [priced, round64_fifth, round64_quarter, round64_three_tenths,
      round64_seven_twentieths, round64_two_fifths]
    norm_num
  refine ⟨Or.inr hrange, h.1, ?_⟩
  simp [mapToDrawingCommands, List.mapIdx_cons, c0, c1, c2]

/-! ### `updateDisplay` -/

theorem relevantPrices_eq_take (knownPrices : List tibberPrice) :
    relevantPrices knownPrices = knownPrices.take 24 := by
  unfold relevantPrices chartBarCount
  split_ifs with h
  · rfl
  · rw [List.take_of_length_le (by omega)]

theorem mapToDrawingCommands_command (impl : Int) (now : Time) (prices : List tibberPrice) :
    ∀ c ∈ mapToDrawingCommands impl now prices, c.Command = "df" := by
  intro c hc
  obtain ⟨i, hi, rfl⟩ := List.getElem_of_mem hc
  have hi2 : i < prices.length := by
    rw [mapToDrawingCommands_length] at hi; exact hi
  rw [mapToDrawingCommands_getElem impl now prices i hi2 hi]

theorem displayApp_draw (impl : Int) (now : Time) (knownPrices : List tibberPrice) :
    (displayApp impl now knownPrices).Draw =
      { Command := "dt", X := 0, Y := 1,
        Text := (match currentPrice now (knownPrices.take 24) with
          | .ok current => sprintfSpaceD (roundedPrice impl current.Total)
          | .error _ => "?"),
        Color := "#FFFFFF" } ::
      mapToDrawingCommands impl now (knownPrices.take 24) := by
  simp only [displayApp, relevantPrices_eq_take]
  rfl

theorem updateDisplay_eq (impl : Int) (now : Time)
    (postApplication : String → String → AwtrixApp → Option String) (flagAwtrixIP : String)
    (knownPrices : List tibberPrice) :
    updateDisplay impl now postApplication flagAwtrixIP knownPrices =
      match postApplication flagAwtrixIP customAppName (displayApp impl now knownPrices) with
      | some err => Except.error (Fatal.publishFailed err)
      | none => Except.ok (displayApp impl now knownPrices) := rfl

/-- C13: for a window of length `n`, the draw list built by `updateDisplay` is one
"dt" text command followed by the bar commands of the first `min n 24` records of the
window, in window order: `1 + min n 24` commands, of which exactly `min n 24` are
"df" bars (bar `i` at X = 12 + i with the colour of the window's record `i`), and it
is this payload that a successful `updateDisplay` has posted. -/
theorem displayApp_bars (impl : Int) (now : Time) (knownPrices : List tibberPrice) :
    (displayApp impl now knownPrices).Draw.length = 1 + min knownPrices.length 24 ∧
    (∃ text : AwtrixDrawCommand, text.Command = "dt" ∧
      (displayApp impl now knownPrices).Draw =
        text :: mapToDrawingCommands impl now (knownPrices.take 24)) ∧
    (displayApp impl now knownPrices).Draw.filter (fun c => c.Command == "df") =
      mapToDrawingCommands impl now (knownPrices.take 24) ∧
    ((displayApp impl now knownPrices).Draw.filter (fun c => c.Command == "df")).length =
      min knownPrices.length 24 ∧
    ((displayApp impl now knownPrices).Draw.filter (fun c => c.Command == "dt")).length = 1 ∧
    (∀ (i : Nat) (hi : i < knownPrices.length)
      (hc : i < (mapToDrawingCommands impl now (knownPrices.take 24)).length),
      (mapToDrawingCommands impl now (knownPrices.take 24))[i].X = 12 + (i : Int) ∧
      (mapToDrawingCommands impl now (knownPrices.take 24))[i].Color =
        mapPriceToColor now knownPrices[i]) ∧
    (∀ (postApplication : String → String → AwtrixApp → Option String) (ip : String)
      (app : AwtrixApp),
      updateDisplay impl now postApplication ip knownPrices = Except.ok app →
        app = displayApp impl now knownPrices) := by
  have hlen : (mapToDrawingCommands impl now (knownPrices.take 24)).length =
      min knownPrices.length 24 := by
    rw [mapToDrawingCommands_length, List.length_take]
    exact Nat.min_comm _ _
  have hdf : (mapToDrawingCommands impl now (knownPrices.take 24)).filter
      (fun c => c.Command == "df") = mapToDrawingCommands impl now (knownPrices.take 24) := by
    rw [List.filter_eq_self]
    intro c hc
    simp [mapToDrawingCommands_command impl now _ c hc]
  have hdt : (mapToDrawingCommands impl now (knownPrices.take 24)).filter
      (fun c => c.Command == "dt") = [] := by
    rw [List.filter_eq_nil_iff]
    intro c hc
    rw [mapToDrawingCommands_command impl now _ c hc]
    decide
  refine ⟨?_, ⟨_, rfl, displayApp_draw impl now knownPrices⟩, ?_, ?_, ?_, ?_, ?_⟩
  · rw [displayApp_draw, List.length_cons, hlen]; omega
  · rw [displayApp_draw, List.filter_cons_of_neg (by simp), hdf]
  · rw [displayApp_draw, List.filter_cons_of_neg (by simp), hdf, hlen]
  · rw [displayApp_draw, List.filter_cons_of_pos (by simp), hdt]; rfl
  · intro i hi hc
    have hi2 : i < (knownPrices.take 24).length := by
      rw [mapToDrawingCommands_length] at hc; exact hc
    rw [mapToDrawingCommands_getElem impl now _ i hi2 hc]
    have : (knownPrices.take 24)[i] = knownPrices[i] := by
      simp
    rw [this]
    exact ⟨rfl, rfl⟩
  · intro post ip app h
    rw [updateDisplay_eq] at h
    split at h
    · cases h
    · exact (Except.ok.inj h).symm

/-- C15: when none of the first 24 records of the window passes the is-current test,
the failed search ends nothing: the payload is the text command "?" at X = 0, Y = 1 in
"#FFFFFF" followed by exactly the bars `mapToDrawingCommands` gives for the first 24
records, and `updateDisplay` succeeds with it whenever the post itself succeeds; its
only fatal outcome is a failed post. -/
theorem displayApp_placeholder (impl : Int) (now : Time) (knownPrices : List tibberPrice)
    (hnone : ∀ p ∈ knownPrices.take 24, isCurrent now p = false) :
    (displayApp impl now knownPrices).Draw =
      { Command := "dt", X := 0, Y := 1, Text := "?", Color := "#FFFFFF" } ::
        mapToDrawingCommands impl now (knownPrices.take 24) ∧
    (∀ (postApplication : String → String → AwtrixApp → Option String) (ip : String),
      postApplication ip customAppName (displayApp impl now knownPrices) = none →
      updateDisplay impl now postApplication ip knownPrices =
        Except.ok (displayApp impl now knownPrices)) ∧
    (∀ (postApplication : String → String → AwtrixApp → Option String) (ip : String)
      (e : Fatal),
      updateDisplay impl now postApplication ip knownPrices = Except.error e →
      ∃ err, postApplication ip customAppName (displayApp impl now knownPrices) = some err ∧
        e = Fatal.publishFailed err) := by
  refine ⟨?_, ?_, ?_⟩
  · rw [displayApp_draw, currentPrice_error_of_none now _ hnone]
  · intro post ip h
    rw [updateDisplay_eq, h]
  · intro post ip e h
    rw [updateDisplay_eq] at h
    split at h
    · rename_i err herr
      exact ⟨err, herr, (Except.error.inj h).symm⟩
    · cases h

/-- Witness of C15: three records of hours 700 to 702, the clock in hour 800. -/
theorem displayApp_placeholder_witness :
    (∀ p ∈ [priced 0.10 700, priced 0.30 701, priced 0.20 702].take 24,
      isCurrent (halfPast 800) p = false) ∧
    (displayApp 0 (halfPast 800) [priced 0.10 700, priced 0.30 701, priced 0.20 702]).Draw =
      { Command := "dt", X := 0, Y := 1, Text := "?", Color := "#FFFFFF" } ::
        mapToDrawingCommands 0 (halfPast 800)
          ([priced 0.10 700, priced 0.30 701, priced 0.20 702].take 24) :=
  ⟨by decide,
    (displayApp_placeholder 0 (halfPast 800)
      [priced 0.10 700, priced 0.30 701, priced 0.20 702] (by decide)).1⟩

theorem tier_monotone_of_cases (ca cb : String) (x y t1 t2 t3 t4 t5 : ℚ)
    (o1 : t1 < t2) (o2 : t2 < t3) (o3 : t3 < t4) (o4 : t4 < t5) (hxy : x ≤ y)
    (ha : (x ≤ t1 ∧ ca = "#6464ff") ∨
      (t1 < x ∧ x < t2 ∧ ca = "#00ff00") ∨
      (t2 ≤ x ∧ x < t3 ∧ ca = "#ffff00") ∨
      (t3 ≤ x ∧ x < t4 ∧ ca = "#ff8000") ∨
      (t4 ≤ x ∧ x < t5 ∧ ca = "#ff0000") ∨
      (t5 ≤ x ∧ ca = "#800080"))
    (hb : (y ≤ t1 ∧ cb = "#6464ff") ∨
      (t1 < y ∧ y < t2 ∧ cb = "#00ff00") ∨
      (t2 ≤ y ∧ y < t3 ∧ cb = "#ffff00") ∨
      (t3 ≤ y ∧ y < t4 ∧ cb = "#ff8000") ∨
      (t4 ≤ y ∧ y < t5 ∧ cb = "#ff0000") ∨
      (t5 ≤ y ∧ cb = "#800080")) :
    colourTier ca ≤ colourTier cb := by
  rcases ha with
    ⟨a1, ca⟩ | ⟨a1, a2, ca⟩ | ⟨a1, a2, ca⟩ | ⟨a1, a2, ca⟩ | ⟨a1, a2, ca⟩ | ⟨a1, ca⟩ <;>
  rcases hb with
    ⟨b1, cb⟩ | ⟨b1, b2, cb⟩ | ⟨b1, b2, cb⟩ | ⟨b1, b2, cb⟩ | ⟨b1, b2, cb⟩ | ⟨b1, cb⟩ <;>
  rw [ca, cb] <;>
  first
    | decide
    | (exfalso; linarith)

/-- C16: for records `a` and `b` that are not current, `a.Total ≤ b.Total` implies
that the colour of `a` is not above the colour of `b` in the order blue, green,
yellow, orange, red, purple. -/
theorem mapPriceToColor_monotone (now : Time) (a b : tibberPrice)
    (ha : isCurrent now a = false) (hb : isCurrent now b = false)
    (hab : a.Total ≤ b.Total) :
    colourTier (mapPriceToColor now a) ≤ colourTier (mapPriceToColor now b) :=
  tier_monotone_of_cases _ _ a.Total b.Total _ _ _ _ _
    thresholds_ascending.1 thresholds_ascending.2.1 thresholds_ascending.2.2.1
    thresholds_ascending.2.2.2 hab (mapPriceToColor_cases now a ha)
    (mapPriceToColor_cases now b hb)

/-- Witness of C16: totals 0.22 and 0.38 at a time when neither record is current. -/
theorem mapPriceToColor_monotone_witness :
    isCurrent (halfPast 800) (priced 0.22 700) = false ∧
    isCurrent (halfPast 800) (priced 0.38 701) = false ∧
    (priced 0.22 700).Total ≤ (priced 0.38 701).Total ∧
    colourTier (mapPriceToColor (halfPast 800) (priced 0.22 700)) ≤
      colourTier (mapPriceToColor (halfPast 800) (priced 0.38 701)) :=
  ⟨by decide, by decide, by norm_num [priced],
    mapPriceToColor_monotone (halfPast 800) (priced 0.22 700) (priced 0.38 701)
      (by decide) (by decide) (by norm_num [priced])⟩

/-! ### Sorted input and repeated update -/

theorem filter_before_append_after_of_sorted (now : Time) (prices : List tibberPrice)
    (hs : sortedByStart prices) (hnow : ∀ p ∈ prices, p.StartsAt.ns ≠ now.ns) :
    prices.filter (fun p => p.StartsAt.Before now) ++
      prices.filter (fun p => p.StartsAt.After now) = prices := by
  induction prices with
  | nil => rfl
  | cons p ps ih =>
    have hs2 : sortedByStart ps := (List.pairwise_cons.mp hs).2
    have hle : ∀ q ∈ ps, p.StartsAt.ns ≤ q.StartsAt.ns := (List.pairwise_cons.mp hs).1
    have hps : ∀ q ∈ ps, q.StartsAt.ns ≠ now.ns := fun q hq => hnow q (List.mem_cons_of_mem _ hq)
    have ih2 := ih hs2 hps
    rcases before_or_after_of_ne now p (hnow p (List.mem_cons_self _ _)) with ⟨hb, ha⟩ | ⟨hb, ha⟩
    · simp only [List.filter_cons, hb, ha, if_true, List.cons_append]
      simpa using ih2
    · have hafter : now.ns < p.StartsAt.ns := by
        simpa [Time.After] using ha
      have hnil : ps.filter (fun q => q.StartsAt.Before now) = [] := by
        rw [List.filter_eq_nil_iff]
        intro q hq
        have := hle q hq
        simp only [Time.Before, decide_eq_true_eq]
        omega
      have hall : ps.filter (fun q => q.StartsAt.After now) = ps := by
        rw [List.filter_eq_self]
        intro q hq
        have := hle q hq
        simp only [Time.After, decide_eq_true_eq]
        omega
      simp only [List.filter_cons, hb, ha, if_true, hnil, hall]
      simp

theorem updateKnowPrices_of_sorted (now : Time) (prices : List tibberPrice)
    (hs : sortedByStart prices) (hnow : ∀ p ∈ prices, p.StartsAt.ns ≠ now.ns) :
    updateKnowPrices now prices =
      Except.ok (prices.drop (historicCount now prices - 4)) := by
  rw [updateKnowPrices_ok now prices hnow]
  have hsplit := filter_before_append_after_of_sorted now prices hs hnow
  have hcount : historicCount now prices =
      (prices.filter (fun p => p.StartsAt.Before now)).length := by
    simp [historicCount, List.countP_eq_length_filter]
  rw [hcount]
  have hdrop : prices.drop ((prices.filter (fun p => p.StartsAt.Before now)).length - 4) =
      (prices.filter (fun p => p.StartsAt.Before now) ++
        prices.filter (fun p => p.StartsAt.After now)).drop
          ((prices.filter (fun p => p.StartsAt.Before now)).length - 4) := by
    rw [hsplit]
  rw [hdrop, List.drop_append_of_le_length (by omega)]

/-- C18: if the fetched sequence is ascending by `StartsAt` and no record starts
exactly at the clock reading, the window of `updateKnowPrices` is the input without
its first `historicCount - 4` records (none dropped when there are at most 4): a
suffix of the input, and still ascending by `StartsAt`. -/
theorem updateKnowPrices_sorted_suffix (now : Time) (prices : List tibberPrice)
    (hs : sortedByStart prices) (hnow : ∀ p ∈ prices, p.StartsAt.Equal now = false) :
    updateKnowPrices now prices =
      Except.ok (prices.drop (historicCount now prices - 4)) ∧
    prices.drop (historicCount now prices - 4) <:+ prices ∧
    sortedByStart (prices.drop (historicCount now prices - 4)) :=
  ⟨updateKnowPrices_of_sorted now prices hs (ne_of_Equal_false now prices hnow),
    List.drop_suffix _ _,
    List.Pairwise.sublist (List.drop_sublist _ _) hs⟩

/-- Witness of C18: 6 elapsed hours and 3 coming hours lose the first two records. -/
theorem updateKnowPrices_sorted_suffix_witness :
    sortedByStart (hourly 200 9) ∧
    (∀ p ∈ hourly 200 9, p.StartsAt.Equal (halfPast 205) = false) ∧
    historicCount (halfPast 205) (hourly 200 9) = 6 ∧
    updateKnowPrices (halfPast 205) (hourly 200 9) =
      Except.ok ((hourly 200 9).drop (historicCount (halfPast 205) (hourly 200 9) - 4)) ∧
    (hourly 200 9).drop (historicCount (halfPast 205) (hourly 200 9) - 4) <:+ hourly 200 9 ∧
    sortedByStart ((hourly 200 9).drop (historicCount (halfPast 205) (hourly 200 9) - 4)) :=
  ⟨by unfold sortedByStart; decide, hourly_ne_halfPast 200 205 9, by decide,
    updateKnowPrices_sorted_suffix (halfPast 205) (hourly 200 9)
      (by unfold sortedByStart; decide) (hourly_ne_halfPast 200 205 9)⟩

theorem filter_before_window (now : Time) (prices : List tibberPrice) (k : Nat) :
    ((prices.filter (fun p => p.StartsAt.Before now)).drop k ++
        prices.filter (fun p => p.StartsAt.After now)).filter
        (fun p => p.StartsAt.Before now) =
      (prices.filter (fun p => p.StartsAt.Before now)).drop k := by
  rw [List.filter_append]
  have h1 : ((prices.filter (fun p => p.StartsAt.Before now)).drop k).filter
      (fun p => p.StartsAt.Before now) =
      (prices.filter (fun p => p.StartsAt.Before now)).drop k := by
    rw [List.filter_eq_self]
    intro a ha
    exact (List.mem_filter.mp (List.mem_of_mem_drop ha)).2
  have h2 : (prices.filter (fun p => p.StartsAt.After now)).filter
      (fun p => p.StartsAt.Before now) = [] := by
    rw [List.filter_eq_nil_iff]
    intro a ha
    have := (List.mem_filter.mp ha).2
    simp only [Time.After, Time.Before, decide_eq_true_eq] at this ⊢
    omega
  rw [h1, h2, List.append_nil]

theorem filter_after_window (now : Time) (prices : List tibberPrice) (k : Nat) :
    ((prices.filter (fun p => p.StartsAt.Before now)).drop k ++
        prices.filter (fun p => p.StartsAt.After now)).filter
        (fun p => p.StartsAt.After now) =
      prices.filter (fun p => p.StartsAt.After now) := by
  rw [List.filter_append]
  have h1 : ((prices.filter (fun p => p.StartsAt.Before now)).drop k).filter
      (fun p => p.StartsAt.After now) = [] := by
    rw [List.filter_eq_nil_iff]
    intro a ha
    have := (List.mem_filter.mp (List.mem_of_mem_drop ha)).2
    simp only [Time.After, Time.Before, decide_eq_true_eq] at this ⊢
    omega
  have h2 : (prices.filter (fun p => p.StartsAt.After now)).filter
      (fun p => p.StartsAt.After now) = prices.filter (fun p => p.StartsAt.After now) := by
    rw [List.filter_eq_self]
    intro a ha
    exact (List.mem_filter.mp ha).2
  rw [h1, h2, List.nil_append]

/-- C20: at a fixed clock reading with no record starting exactly at it,
`updateKnowPrices` succeeds, and applying it to its own result gives that result
again. -/
theorem updateKnowPrices_idempotent (now : Time) (window : List tibberPrice)
    (hnow : ∀ p ∈ window, p.StartsAt.Equal now = false) :
    ∃ once, updateKnowPrices now window = Except.ok once ∧
      updateKnowPrices now once = Except.ok once := by
  have hne := ne_of_Equal_false now window hnow
  refine ⟨_, updateKnowPrices_ok now window hne, ?_⟩
  have hmem : ∀ p ∈ (window.filter (fun p => p.StartsAt.Before now)).drop
      ((window.filter (fun p => p.StartsAt.Before now)).length - 4) ++
      window.filter (fun p => p.StartsAt.After now), p.StartsAt.ns ≠ now.ns := by
    intro p hp
    rcases List.mem_append.mp hp with h | h
    · exact hne p (List.mem_filter.mp (List.mem_of_mem_drop h)).1
    · exact hne p (List.mem_filter.mp h).1
  rw [updateKnowPrices_ok now _ hmem, filter_before_window, filter_after_window]
  have hz : ((window.filter (fun p => p.StartsAt.Before now)).drop
      ((window.filter (fun p => p.StartsAt.Before now)).length - 4)).length - 4 = 0 := by
    rw [List.length_drop]; omega
  rw [hz, List.drop_zero]

/-- Witness of C20: 6 elapsed hours and 3 coming hours. -/
theorem updateKnowPrices_idempotent_witness :
    (∀ p ∈ hourly 200 9, p.StartsAt.Equal (halfPast 205) = false) ∧
    updateKnowPrices (halfPast 205) (hourly 200 9) = Except.ok (hourly 202 7) ∧
    updateKnowPrices (halfPast 205) (hourly 202 7) = Except.ok (hourly 202 7) ∧
    ∃ once, updateKnowPrices (halfPast 205) (hourly 200 9) = Except.ok once ∧
      updateKnowPrices (halfPast 205) once = Except.ok once :=
  ⟨hourly_ne_halfPast 200 205 9, rfl, rfl,
    updateKnowPrices_idempotent (halfPast 205) (hourly 200 9) (hourly_ne_halfPast 200 205 9)⟩

/-! ### `roundedPrice` and the label -/

theorem mathRound_eq_intCast (x : ℚ) :
    ∃ k : Int, mathRound x = (k : ℚ) ∧ |(k : ℚ) - x| ≤ 1 / 2 := by
  unfold mathRound
  split_ifs with h
  · refine ⟨⌊x + 1 / 2⌋, rfl, ?_⟩
    have h1 := Int.floor_le (x + 1 / 2)
    have h2 := Int.lt_floor_add_one (x + 1 / 2)
    rw [abs_le]
    constructor <;> linarith
  · refine ⟨⌈x - 1 / 2⌉, rfl, ?_⟩
    have h1 := Int.le_ceil (x - 1 / 2)
    have h2 := Int.ceil_lt_add_one (x - 1 / 2)
    rw [abs_le]
    constructor <;> linarith

theorem toInt_intCast (impl k : Int) (hlo : -(2 : Int) ^ 63 ≤ k) (hhi : k < (2 : Int) ^ 63) :
    F64.toInt impl (F64.fin (k : ℚ)) = k := by
  simp only [F64.toInt]
  have ht : (if 0 ≤ (k : ℚ) then ⌊(k : ℚ)⌋ else ⌈(k : ℚ)⌉) = k := by
    split_ifs <;> simp
  rw [ht, if_pos ⟨hlo, hhi⟩]

theorem roundHalfEven_abs_sub_le (x : ℚ) : |((roundHalfEven x : Int) : ℚ) - x| ≤ 1 / 2 := by
  have h1 := Int.floor_le x
  have h2 := Int.lt_floor_add_one x
  unfold roundHalfEven
  split_ifs with a b c
  · rw [abs_le]; constructor <;> linarith
  · push_cast; rw [abs_le]; constructor <;> linarith
  · rw [abs_le]; constructor <;> linarith
  · push_cast; rw [abs_le]; constructor <;> linarith

/-- The error of binary64 rounding: at most 2^-53 of the magnitude, or 2^-1075 in the
subnormal range. -/
theorem round64_abs_sub_le (q : ℚ) :
    |round64 q - q| ≤ |q| * (2 : ℚ) ^ (-53 : Int) + (2 : ℚ) ^ (-1075 : Int) := by
  by_cases hq : q = 0
  · subst hq
    rw [round64_zero]
    norm_num
  have hpos : 0 < |q| := abs_pos.mpr hq
  have hnn : (0 : ℚ) ≤ |q| * (2 : ℚ) ^ (-53 : Int) := by positivity
  have hnn2 : (0 : ℚ) < (2 : ℚ) ^ (-1075 : Int) := by positivity
  unfold round64
  rw [if_neg hq]
  simp only []
  generalize he : max (Int.log 2 |q|) (-1022) - 52 = e
  have h2e : (0 : ℚ) < (2 : ℚ) ^ e := by positivity
  have hx := roundHalfEven_abs_sub_le (q / (2 : ℚ) ^ e)
  have key : |((roundHalfEven (q / (2 : ℚ) ^ e) : Int) : ℚ) * (2 : ℚ) ^ e - q| =
      |((roundHalfEven (q / (2 : ℚ) ^ e) : Int) : ℚ) - q / (2 : ℚ) ^ e| * (2 : ℚ) ^ e := by
    rw [← abs_of_pos h2e, ← abs_mul, abs_of_pos h2e]
    congr 1
    field_simp
  rw [key]
  have hb : |((roundHalfEven (q / (2 : ℚ) ^ e) : Int) : ℚ) - q / (2 : ℚ) ^ e| * (2 : ℚ) ^ e ≤
      1 / 2 * (2 : ℚ) ^ e := mul_le_mul_of_nonneg_right hx (le_of_lt h2e)
  have he2 : 1 / 2 * (2 : ℚ) ^ e ≤ |q| * (2 : ℚ) ^ (-53 : Int) + (2 : ℚ) ^ (-1075 : Int) := by
    rcases le_total (Int.log 2 |q|) (-1022) with hl | hl
    · have : e = -1074 := by rw [← he, max_eq_right hl]; norm_num
      rw [this]
      have : (1 : ℚ) / 2 * (2 : ℚ) ^ (-1074 : Int) = (2 : ℚ) ^ (-1075 : Int) := by
        rw [show (-1074 : Int) = -1075 + 1 by norm_num, zpow_add₀ (by norm_num : (2 : ℚ) ≠ 0)]
        norm_num
      rw [this]
      linarith
    · have hee : e = Int.log 2 |q| + (-52) := by rw [← he, max_eq_left hl]; ring
      have hlog : ((2 : Nat) : ℚ) ^ Int.log 2 |q| ≤ |q| :=
        Int.zpow_log_le_self (by norm_num) hpos
      have hlog2 : (2 : ℚ) ^ Int.log 2 |q| ≤ |q| := by exact_mod_cast hlog
      rw [hee, zpow_add₀ (by norm_num : (2 : ℚ) ≠ 0)]
      have h52 : (1 : ℚ) / 2 * ((2 : ℚ) ^ Int.log 2 |q| * (2 : ℚ) ^ (-52 : Int)) =
          (2 : ℚ) ^ Int.log 2 |q| * (2 : ℚ) ^ (-53 : Int) := by
        rw [show (-52 : Int) = -53 + 1 by norm_num, zpow_add₀ (by norm_num : (2 : ℚ) ≠ 0)]
        ring
      rw [h52]
      have : (2 : ℚ) ^ Int.log 2 |q| * (2 : ℚ) ^ (-53 : Int) ≤ |q| * (2 : ℚ) ^ (-53 : Int) :=
        mul_le_mul_of_nonneg_right hlog2 (by positivity)
      linarith
  linarith

theorem roundedPrice_eq (impl : Int) (p : ℚ)
    (hrange : -(2 : ℚ) ^ 63 ≤ mathRound (round64 (p * 100)) ∧
      mathRound (round64 (p * 100)) < (2 : ℚ) ^ 63) :
    ((roundedPrice impl p : Int) : ℚ) = mathRound (round64 (p * 100)) := by
  obtain ⟨k, hk, hnear⟩ := mathRound_eq_intCast (round64 (p * 100))
  rw [hk] at hrange
  have hlo : -(2 : Int) ^ 63 ≤ k := by exact_mod_cast hrange.1
  have hhi : k < (2 : Int) ^ 63 := by exact_mod_cast hrange.2
  rw [abs_le] at hnear
  have hbound : -(2 : ℚ) ^ (1024 : Nat) < round64 (p * 100) ∧
      round64 (p * 100) < (2 : ℚ) ^ (1024 : Nat) := by
    have h1 : (k : ℚ) < (2 : ℚ) ^ 63 := hrange.2
    have h2 : -(2 : ℚ) ^ 63 ≤ (k : ℚ) := hrange.1
    have h3 : (2 : ℚ) ^ 63 + 1 < (2 : ℚ) ^ (1024 : Nat) := by norm_num
    constructor <;> linarith
  unfold roundedPrice
  rw [F64.mul_fin, F64.round_fin _ _ rfl hbound]
  simp only [F64.mathRound]
  rw [hk, toInt_intCast impl k hlo hhi]

/-- C14 fails as stated, three times: for the float64 of 0.015 the product with 100
rounds to the float64 1.5, which `math.Round` takes to 2, more than 1/2 from 100·p;
for the price 100000000000000000 the value 100·p is beyond `int`, so `roundedPrice`
is whatever the conversion yields there; and the label of a current record of total
0.25 is " 25", a space followed by the decimal rendering "25". -/
theorem roundedPrice_float_product_range_and_label :
    roundedPrice 0 (round64 0.015) = 2 ∧
    ¬ (|((roundedPrice 0 (round64 0.015) : Int) : ℚ) - 100 * round64 0.015| ≤ 1 / 2) ∧
    roundedPrice (-9223372036854775808) 100000000000000000 = -9223372036854775808 ∧
    ¬ (|((roundedPrice (-9223372036854775808) 100000000000000000 : Int) : ℚ) -
        100 * 100000000000000000| ≤ 1 / 2) ∧
    roundedPrice 9223372036854775807 100000000000000000 = 9223372036854775807 ∧
    ¬ (|((roundedPrice 9223372036854775807 100000000000000000 : Int) : ℚ) -
        100 * 100000000000000000| ≤ 1 / 2) ∧
    currentPrice (halfPast 400) ([priced 0.25 400].take 24) = Except.ok (priced 0.25 400) ∧
    roundedPrice 0 (priced 0.25 400).Total = 25 ∧
    (displayApp 0 (halfPast 400) [priced 0.25 400]).Draw.map (fun c => c.Text) = [" 25", ""] ∧
    toString (25 : Int) = "25" ∧
    (" 25" : String) ≠ "25" := by
  have hp15 : round64 0.015 = 8646911284551352 * (2 : ℚ) ^ (-59 : Int) := by
    apply round64_eq <;> norm_num [abs_of_pos, abs_lt]
  have hprod15 : round64 (8646911284551352 * (2 : ℚ) ^ (-59 : Int) * 100) =
      6755399441055744 * (2 : ℚ) ^ (-52 : Int) := by
    apply round64_eq <;> norm_num [abs_of_pos, abs_lt]
  have hround15 : mathRound (6755399441055744 * (2 : ℚ) ^ (-52 : Int)) = ((2 : Int) : ℚ) := by
    unfold mathRound
    rw [if_pos (by norm_num)]
    have : ⌊(6755399441055744 * (2 : ℚ) ^ (-52 : Int) + 1 / 2 : ℚ)⌋ = 2 := by
      rw [Int.floor_eq_iff]; constructor <;> norm_num
    rw [this]
  have h15 : roundedPrice 0 (round64 0.015) = 2 := by
    have hq := roundedPrice_eq 0 (round64 0.015) (by
      rw [hp15, hprod15, hround15]; constructor <;> norm_num)
    rw [hp15, hprod15, hround15] at hq
    rw [hp15]
    exact_mod_cast hq
  have hbig : round64 (100000000000000000 * 100) = 4882812500000000 * (2 : ℚ) ^ (11 : Int) := by
    apply round64_eq <;> norm_num [abs_of_pos, abs_lt]
  have hbigr : mathRound (4882812500000000 * (2 : ℚ) ^ (11 : Int)) =
      ((10000000000000000000 : Int) : ℚ) := by
    unfold mathRound
    rw [if_pos (by norm_num)]
    have : ⌊(4882812500000000 * (2 : ℚ) ^ (11 : Int) + 1 / 2 : ℚ)⌋ = 10000000000000000000 := by
      rw [Int.floor_eq_iff]; constructor <;> norm_num
    rw [this]
  have hout : ∀ impl : Int, roundedPrice impl 100000000000000000 = impl := by
    intro impl
    unfold roundedPrice
    rw [F64.mul_fin, F64.round_fin _ _ hbig (by constructor <;> norm_num)]
    simp only [F64.mathRound]
    rw [hbigr]
    simp only [F64.toInt]
    have ht : (if 0 ≤ ((10000000000000000000 : Int) : ℚ) then
        ⌊((10000000000000000000 : Int) : ℚ)⌋ else ⌈((10000000000000000000 : Int) : ℚ)⌉) =
        10000000000000000000 := by
      split_ifs <;> simp
    rw [ht]
    norm_num
  have hprod25 : round64 ((0.25 : ℚ) * 100) = 7036874417766400 * (2 : ℚ) ^ (-48 : Int) := by
    apply round64_eq <;> norm_num [abs_of_pos, abs_lt]
  have hround25 : mathRound (7036874417766400 * (2 : ℚ) ^ (-48 : Int)) = ((25 : Int) : ℚ) := by
    unfold mathRound
    rw [if_pos (by norm_num)]
    have : ⌊(7036874417766400 * (2 : ℚ) ^ (-48 : Int) + 1 / 2 : ℚ)⌋ = 25 := by
      rw [Int.floor_eq_iff]; constructor <;> norm_num
    rw [this]
  have h25 : roundedPrice 0 (priced 0.25 400).Total = 25 := by
    have hq := roundedPrice_eq 0 (0.25 : ℚ) (by
      rw [hprod25, hround25]; constructor <;> norm_num)
    rw [hprod25, hround25] at hq
    show roundedPrice 0 (0.25 : ℚ) = 25
    exact_mod_cast hq
  have hcur : currentPrice (halfPast 400) ([priced 0.25 400].take 24) =
      Except.ok (priced 0.25 400) := by
    have hc : isCurrent (halfPast 400) (priced 0.25 400) = true := by decide
    simp [currentPrice, hc]
  refine ⟨h15, ?_, hout _, ?_, hout _, ?_, hcur, h25, ?_, by decide, by decide⟩
  · rw [h15, hp15]; norm_num [abs_le]
  · rw [hout]; norm_num
  · rw [hout]; norm_num
  · rw [displayApp_draw, hcur]
    simp only [h25, List.map]
    have : sprintfSpaceD 25 = " 25" := by decide
    rw [this]

/-- C14, amended: for every price `p` such that the float64 product `p * 100`, rounded
to the nearest integer, is within `int`, `roundedPrice p` is the integer nearest to
that float64 product, halves away from zero: at most 1/2 from it, hence at most
1/2 + 2^-53·|100·p| + 2^-1075 from 100·p; and whenever `currentPrice` finds a record
among the first 24, the text of the "dt" command built by `updateDisplay` is one space
followed by the decimal rendering of `roundedPrice` of that record's total, with no
currency symbol. -/
theorem roundedPrice_nearest_and_label (impl : Int) (p : ℚ) (now : Time)
    (knownPrices : List tibberPrice) (r : tibberPrice)
    (hrange : -(2 : ℚ) ^ 63 ≤ mathRound (round64 (p * 100)) ∧
      mathRound (round64 (p * 100)) < (2 : ℚ) ^ 63)
    (hfound : currentPrice now (knownPrices.take 24) = Except.ok r) :
    ((roundedPrice impl p : Int) : ℚ) = mathRound (round64 (p * 100)) ∧
    |((roundedPrice impl p : Int) : ℚ) - round64 (p * 100)| ≤ 1 / 2 ∧
    |((roundedPrice impl p : Int) : ℚ) - 100 * p| ≤
      1 / 2 + |100 * p| * (2 : ℚ) ^ (-53 : Int) + (2 : ℚ) ^ (-1075 : Int) ∧
    (displayApp impl now knownPrices).Draw =
      { Command := "dt", X := 0, Y := 1,
        Text := " " ++ toString (roundedPrice impl r.Total), Color := "#FFFFFF" } ::
        mapToDrawingCommands impl now (knownPrices.take 24) := by
  have heq := roundedPrice_eq impl p hrange
  obtain ⟨k, hk, hnear⟩ := mathRound_eq_intCast (round64 (p * 100))
  have h1 : |((roundedPrice impl p : Int) : ℚ) - round64 (p * 100)| ≤ 1 / 2 := by
    rw [heq, hk]; exact hnear
  refine ⟨heq, h1, ?_, ?_⟩
  · have h2 := round64_abs_sub_le (p * 100)
    have h3 : ((roundedPrice impl p : Int) : ℚ) - 100 * p =
        (((roundedPrice impl p : Int) : ℚ) - round64 (p * 100)) +
          (round64 (p * 100) - p * 100) := by ring
    have h4 : |100 * p| = |p * 100| := by rw [mul_comm]
    rw [h3, h4]
    calc |(((roundedPrice impl p : Int) : ℚ) - round64 (p * 100)) +
          (round64 (p * 100) - p * 100)|
        ≤ |((roundedPrice impl p : Int) : ℚ) - round64 (p * 100)| +
          |round64 (p * 100) - p * 100| := abs_add _ _
      _ ≤ 1 / 2 + (|p * 100| * (2 : ℚ) ^ (-53 : Int) + (2 : ℚ) ^ (-1075 : Int)) :=
          add_le_add h1 h2
      _ = 1 / 2 + |p * 100| * (2 : ℚ) ^ (-53 : Int) + (2 : ℚ) ^ (-1075 : Int) :=
          (add_assoc _ _ _).symm
  · rw [displayApp_draw, hfound]
    rfl

/-- Witness of C14: a window holding the current record, of total 0.25. -/
theorem roundedPrice_nearest_and_label_witness :
    (-(2 : ℚ) ^ 63 ≤ mathRound (round64 ((0.25 : ℚ) * 100)) ∧
      mathRound (round64 ((0.25 : ℚ) * 100)) < (2 : ℚ) ^ 63) ∧
    currentPrice (halfPast 400) ([priced 0.25 400].take 24) = Except.ok (priced 0.25 400) ∧
    ((roundedPrice 0 0.25 : Int) : ℚ) = mathRound (round64 ((0.25 : ℚ) * 100)) ∧
    |((roundedPrice 0 0.25 : Int) : ℚ) - round64 ((0.25 : ℚ) * 100)| ≤ 1 / 2 ∧
    |((roundedPrice 0 0.25 : Int) : ℚ) - 100 * 0.25| ≤
      1 / 2 + |100 * (0.25 : ℚ)| * (2 : ℚ) ^ (-53 : Int) + (2 : ℚ) ^ (-1075 : Int) ∧
    (displayApp 0 (halfPast 400) [priced 0.25 400]).Draw =
      { Command := "dt", X := 0, Y := 1,
        Text := " " ++ toString (roundedPrice 0 (priced 0.25 400).Total), Color := "#FFFFFF" } ::
        mapToDrawingCommands 0 (halfPast 400) ([priced 0.25 400].take 24) := by
  have hprod25 : round64 ((0.25 : ℚ) * 100) = 7036874417766400 * (2 : ℚ) ^ (-48 : Int) := by
    apply round64_eq <;> norm_num [abs_of_pos, abs_lt]
  have hround25 : mathRound (7036874417766400 * (2 : ℚ) ^ (-48 : Int)) = ((25 : Int) : ℚ) := by
    unfold mathRound
    rw [if_pos (by norm_num)]
    have : ⌊(7036874417766400 * (2 : ℚ) ^ (-48 : Int) + 1 / 2 : ℚ)⌋ = 25 := by
      rw [Int.floor_eq_iff]; constructor <;> norm_num
    rw [this]
  have hrange : -(2 : ℚ) ^ 63 ≤ mathRound (round64 ((0.25 : ℚ) * 100)) ∧
      mathRound (round64 ((0.25 : ℚ) * 100)) < (2 : ℚ) ^ 63 := by
    rw [hprod25, hround25]; constructor <;> norm_num
  have hcur : currentPrice (halfPast 400) ([priced 0.25 400].take 24) =
      Except.ok (priced 0.25 400) := by
    have hc : isCurrent (halfPast 400) (priced 0.25 400) = true := by decide
    simp [currentPrice, hc]
  exact ⟨hrange, hcur,
    roundedPrice_nearest_and_label 0 0.25 (halfPast 400) [priced 0.25 400] (priced 0.25 400)
      hrange hcur⟩

/-! ### The current record of an hourly window -/

theorem isCurrent_of_same_hour (now : Time) (p : tibberPrice)
    (h : p.StartsAt.wall / 3600 = now.wall / 3600) : isCurrent now p = true := by
  rw [isCurrent_eq_true_iff]
  have hd : p.StartsAt.wall / 86400 = now.wall / 86400 := by omega
  constructor
  · unfold Time.Day
    rw [hd]
  · unfold Time.Hour
    omega

theorem not_isCurrent_of_near_hour (now : Time) (p : tibberPrice)
    (hne : p.StartsAt.wall / 3600 ≠ now.wall / 3600)
    (hlo : now.wall / 3600 - 24 < p.StartsAt.wall / 3600)
    (hhi : p.StartsAt.wall / 3600 < now.wall / 3600 + 24) : isCurrent now p = false := by
  have : ¬ (isCurrent now p = true) := by
    rw [isCurrent_eq_true_iff]
    rintro ⟨_, hh⟩
    unfold Time.Hour at hh
    omega
  simpa using this

theorem mapPriceToColor_eq_white_iff (now : Time) (p : tibberPrice) :
    mapPriceToColor now p = "#FFFFFF" ↔ isCurrent now p = true := by
  constructor
  · intro h
    by_contra hc
    have hf : isCurrent now p = false := by simpa using hc
    rcases mapPriceToColor_cases now p hf with
      ⟨_, c⟩ | ⟨_, _, c⟩ | ⟨_, _, c⟩ | ⟨_, _, c⟩ | ⟨_, _, c⟩ | ⟨_, c⟩ <;>
    · rw [c] at h
      revert h
      decide
  · intro h
    simp [mapPriceToColor, h]

theorem countP_of_index (l : List tibberPrice) (f : tibberPrice → Bool) :
    ∀ k : Nat, k ≤ l.length →
      (∀ (i : Nat) (h : i < l.length), f l[i] = decide (i < k)) → l.countP f = k := by
  induction l with
  | nil => intro k hk _; simp at hk; simp [hk]
  | cons a as ih =>
    intro k hk hidx
    cases k with
    | zero =>
      rw [List.countP_eq_zero]
      intro x hx
      obtain ⟨i, hi, rfl⟩ := List.getElem_of_mem hx
      simpa using hidx i hi
    | succ k =>
      have ha : f a = true := by simpa using hidx 0 (by simp)
      rw [List.countP_cons_of_pos _ _ ha]
      congr 1
      apply ih k (by simpa using hk)
      intro i hi
      have := hidx (i + 1) (by simpa using hi)
      simpa using this

/-- C19, amended: let the fetched sequence be consecutive hourly records on clock
hours, ascending, read in a location whose UTC offset is the same at every record and
at the clock reading, and let record `c` be the one whose hour holds the reading, the
reading being strictly after its start.  Then `updateKnowPrices` succeeds, the record
`currentPrice` finds among the first 24 of the window is record `c`, it sits at index
`min 4 historicCount - 1`, and its bar is the only rendered bar coloured "#FFFFFF". -/
theorem currentPrice_of_hourly_window (impl : Int) (now : Time) (prices : List tibberPrice)
    (loc : Location) (off s0 : Int) (c : Nat)
    (hrec : ∀ (i : Nat) (h : i < prices.length),
      prices[i].StartsAt = ⟨(s0 + 3600 * (i : Int)) * 1000000000, loc⟩)
    (hoff : ∀ (i : Nat), i < prices.length → loc.offset (s0 + 3600 * (i : Int)) = off)
    (halign : (s0 + off) % 3600 = 0)
    (hloc : now.loc = loc) (hnowoff : loc.offset now.unix = off)
    (hc : c < prices.length)
    (hafter : prices[c].StartsAt.ns < now.ns)
    (hwithin : now.ns < prices[c].StartsAt.ns + hourNs) :
    ∃ window, updateKnowPrices now prices = Except.ok window ∧
      historicCount now prices = c + 1 ∧
      currentPrice now (relevantPrices window) = Except.ok prices[c] ∧
      (relevantPrices window)[min 4 (historicCount now prices) - 1]? = some prices[c] ∧
      ∀ (i : Nat) (hi : i < (mapToDrawingCommands impl now (relevantPrices window)).length),
        ((mapToDrawingCommands impl now (relevantPrices window))[i].Color = "#FFFFFF" ↔
          i = min 4 (historicCount now prices) - 1) := by
  -- instants and wall-clock hours of the records and of the clock
  have hns : ∀ (i : Nat) (h : i < prices.length),
      prices[i].StartsAt.ns = (s0 + 3600 * (i : Int)) * 1000000000 := by
    intro i h; rw [hrec i h]
  have hwall : ∀ (i : Nat) (h : i < prices.length),
      prices[i].StartsAt.wall = s0 + 3600 * (i : Int) + off := by
    intro i h
    have hu : prices[i].StartsAt.unix = s0 + 3600 * (i : Int) := by
      unfold Time.unix; rw [hns i h]; omega
    unfold Time.wall
    rw [hu, hrec i h]
    simp only
    rw [hoff i h]
  have hnc := hns c hc
  have hnowwall : now.wall / 3600 = (s0 + off) / 3600 + (c : Int) := by
    have hu1 : s0 + 3600 * (c : Int) ≤ now.unix := by
      unfold Time.unix; simp only [hourNs] at hwithin; omega
    have hu2 : now.unix < s0 + 3600 * (c : Int) + 3600 := by
      unfold Time.unix; simp only [hourNs] at hwithin; omega
    unfold Time.wall
    rw [hloc, hnowoff]
    omega
  have hhour : ∀ (i : Nat) (h : i < prices.length),
      prices[i].StartsAt.wall / 3600 = (s0 + off) / 3600 + (i : Int) := by
    intro i h; rw [hwall i h]; omega
  have hcur : ∀ (i : Nat) (h : i < prices.length), i = c → isCurrent now prices[i] = true := by
    intro i h hic
    apply isCurrent_of_same_hour
    rw [hhour i h, hnowwall, hic]
  have hnot : ∀ (i : Nat) (h : i < prices.length), i ≠ c → i < c + 24 → c < i + 24 →
      isCurrent now prices[i] = false := by
    intro i h hic h1 h2
    apply not_isCurrent_of_near_hour
    · rw [hhour i h, hnowwall]; omega
    · rw [hhour i h, hnowwall]; omega
    · rw [hhour i h, hnowwall]; omega
  -- before and after the clock reading
  have hbefore : ∀ (i : Nat) (h : i < prices.length),
      prices[i].StartsAt.Before now = decide (i < c + 1) := by
    intro i h
    unfold Time.Before
    rw [hns i h]
    rw [hnc] at hafter hwithin
    simp only [hourNs] at hwithin
    congr 1
    apply propext
    constructor <;> intro _ <;> omega
  have hneq : ∀ p ∈ prices, p.StartsAt.ns ≠ now.ns := by
    intro p hp
    obtain ⟨i, hi, rfl⟩ := List.getElem_of_mem hp
    rw [hns i hi]
    rw [hnc] at hafter hwithin
    simp only [hourNs] at hwithin
    omega
  have hsorted : sortedByStart prices := by
    unfold sortedByStart
    rw [List.pairwise_iff_getElem]
    intro i j hi hj hij
    rw [hns i hi, hns j hj]
    omega
  have hcount : historicCount now prices = c + 1 := by
    unfold historicCount
    exact countP_of_index prices _ (c + 1) (by omega) hbefore
  have hupd := updateKnowPrices_of_sorted now prices hsorted hneq
  rw [hcount] at hupd
  refine ⟨_, hupd, hcount, ?_⟩
  rw [hcount, relevantPrices_eq_take]
  -- the rendered records
  have hlenW : ((prices.drop (c + 1 - 4)).take 24).length =
      min 24 (prices.length - (c + 1 - 4)) := by
    rw [List.length_take, List.length_drop]
  have hget : ∀ (j : Nat) (hj : j < ((prices.drop (c + 1 - 4)).take 24).length),
      ∃ h : c + 1 - 4 + j < prices.length,
        ((prices.drop (c + 1 - 4)).take 24)[j] = prices[c + 1 - 4 + j] := by
    intro j hj
    have h : c + 1 - 4 + j < prices.length := by
      rw [hlenW] at hj; omega
    exact ⟨h, by simp⟩
  have hjc : min 4 (c + 1) - 1 < ((prices.drop (c + 1 - 4)).take 24).length := by
    rw [hlenW]; omega
  have hWc : ((prices.drop (c + 1 - 4)).take 24)[min 4 (c + 1) - 1] = prices[c] := by
    obtain ⟨h, he⟩ := hget _ hjc
    rw [he]
    congr 1
    omega
  have hWcur : ∀ (j : Nat) (hj : j < ((prices.drop (c + 1 - 4)).take 24).length),
      (isCurrent now ((prices.drop (c + 1 - 4)).take 24)[j] = true ↔
        j = min 4 (c + 1) - 1) := by
    intro j hj
    obtain ⟨h, he⟩ := hget j hj
    rw [he]
    have hj24 : j < 24 := by rw [hlenW] at hj; omega
    constructor
    · intro hcj
      by_contra hne
      have := hnot (c + 1 - 4 + j) h (by omega) (by omega) (by omega)
      rw [this] at hcj
      exact absurd hcj (by decide)
    · intro hje
      exact hcur _ h (by omega)
  refine ⟨?_, ?_, ?_⟩
  · rw [← hWc]
    apply currentPrice_ok_first now _ _ hjc
    · exact (hWcur _ hjc).mpr rfl
    · intro j hj
      have hjl : j < ((prices.drop (c + 1 - 4)).take 24).length := by omega
      have := (hWcur j hjl).not.mpr (by omega)
      simpa using this
  · rw [List.getElem?_eq_getElem hjc, hWc]
  · intro i hi
    have hi2 : i < ((prices.drop (c + 1 - 4)).take 24).length := by
      rw [mapToDrawingCommands_length] at hi; exact hi
    rw [mapToDrawingCommands_getElem impl now _ i hi2 hi]
    show mapPriceToColor now ((prices.drop (c + 1 - 4)).take 24)[i] = "#FFFFFF" ↔ _
    rw [mapPriceToColor_eq_white_iff]
    exact hWcur i hi2

/-- C19 fails as stated: on the night summer time ends the window holds the hours
01:00, 02:00, 02:00, 03:00, all on clock hours and one hour apart; at 02:30 standard
time the record whose hour holds the clock is the third, yet `currentPrice` returns
the second, which has the same day and hour, and both bars are white. -/
theorem currentPrice_autumn_night :
    autumnHours.map (fun p => p.StartsAt.ns) =
      [1729983600 * 1000000000, 1729983600 * 1000000000 + hourNs,
        1729983600 * 1000000000 + 2 * hourNs, 1729983600 * 1000000000 + 3 * hourNs] ∧
    (∀ p ∈ autumnHours, p.StartsAt.wall % 3600 = 0 ∧ p.StartsAt.ns % 1000000000 = 0) ∧
    (autumnHour 0.23 2).StartsAt.ns < autumnHalfPastTwo.ns ∧
    autumnHalfPastTwo.ns < (autumnHour 0.23 2).StartsAt.ns + hourNs ∧
    sameClockHour (autumnHour 0.23 2).StartsAt autumnHalfPastTwo = true ∧
    historicCount autumnHalfPastTwo autumnHours = 3 ∧
    updateKnowPrices autumnHalfPastTwo autumnHours = Except.ok autumnHours ∧
    currentPrice autumnHalfPastTwo (relevantPrices autumnHours) =
      Except.ok (autumnHour 0.22 1) ∧
    (autumnHour 0.22 1).StartsAt.ns ≠ (autumnHour 0.23 2).StartsAt.ns ∧
    (relevantPrices autumnHours)[min 4 (historicCount autumnHalfPastTwo autumnHours) - 1]? =
      some (autumnHour 0.23 2) ∧
    (mapToDrawingCommands 0 autumnHalfPastTwo (relevantPrices autumnHours)).map
      (fun c => c.Color) = ["#00ff00", "#FFFFFF", "#FFFFFF", "#00ff00"] := by
  have h0 : isCurrent autumnHalfPastTwo (autumnHour 0.21 0) = false := by decide
  have h1 : isCurrent autumnHalfPastTwo (autumnHour 0.22 1) = true := by decide
  have h2 : isCurrent autumnHalfPastTwo (autumnHour 0.23 2) = true := by decide
  have h3 : isCurrent autumnHalfPastTwo (autumnHour 0.24 3) = false := by decide
  have hrel : relevantPrices autumnHours = autumnHours := rfl
  have c0 : mapPriceToColor autumnHalfPastTwo (autumnHour 0.21 0) = "#00ff00" := by
    simp only [mapPriceToColor, h0]
    simp only [autumnHour, round64_fifth, round64_quarter, round64_three_tenths,
      round64_seven_twentieths, round64_two_fifths]
    norm_num
  have c1 : mapPriceToColor autumnHalfPastTwo (autumnHour 0.22 1) = "#FFFFFF" := by
    simp only [mapPriceToColor, h1, if_true]
  have c2 : mapPriceToColor autumnHalfPastTwo (autumnHour 0.23 2) = "#FFFFFF" := by
    simp only [mapPriceToColor, h2, if_true]
  have c3 : mapPriceToColor autumnHalfPastTwo (autumnHour 0.24 3) = "#00ff00" := by
    simp only [mapPriceToColor, h3]
    simp only [autumnHour, round64_fifth, round64_quarter, round64_three_tenths,
      round64_seven_twentieths, round64_two_fifths]
    norm_num
  refine ⟨by decide, by decide, by decide, by decide, by decide, by decide, rfl, ?_, by decide,
    rfl, ?_⟩
  · rw [hrel]
    simp only [autumnHours, currentPrice, h0, h1]
    rfl
  · rw [hrel]
    simp [mapToDrawingCommands, autumnHours, List.mapIdx_cons, c0, c1, c2, c3]

/-- Witness of C19: thirty hourly records from hour 500 (UTC), the clock at half past
hour 505. -/
theorem currentPrice_of_hourly_window_witness :
    (∀ (i : Nat) (h : i < (hourly 500 30).length),
      (hourly 500 30)[i].StartsAt =
        ⟨(1800000 + 3600 * (i : Int)) * 1000000000, Location.utc⟩) ∧
    (1800000 + 0 : Int) % 3600 = 0 ∧
    (hourly 500 30)[5]?.map (fun p => decide (p.StartsAt.ns < (halfPast 505).ns)) = some true ∧
    (hourly 500 30)[5]?.map (fun p => decide ((halfPast 505).ns < p.StartsAt.ns + hourNs)) =
      some true ∧
    ∃ window, updateKnowPrices (halfPast 505) (hourly 500 30) = Except.ok window ∧
      historicCount (halfPast 505) (hourly 500 30) = 5 + 1 ∧
      currentPrice (halfPast 505) (relevantPrices window) =
        Except.ok (priced 0.25 505) ∧
      (relevantPrices window)[min 4 (historicCount (halfPast 505) (hourly 500 30)) - 1]? =
        some (priced 0.25 505) ∧
      ∀ (i : Nat) (hi : i < (mapToDrawingCommands 0 (halfPast 505)
          (relevantPrices window)).length),
        ((mapToDrawingCommands 0 (halfPast 505) (relevantPrices window))[i].Color = "#FFFFFF" ↔
          i = min 4 (historicCount (halfPast 505) (hourly 500 30)) - 1) := by
  have hrec : ∀ (i : Nat) (h : i < (hourly 500 30).length),
      (hourly 500 30)[i].StartsAt =
        ⟨(1800000 + 3600 * (i : Int)) * 1000000000, Location.utc⟩ := by
    intro i h
    simp only [hourly, List.getElem_map, List.getElem_range, hourNs]
    have hr : (500 + (i : Int)) * (3600 * 1000000000) =
        (1800000 + 3600 * (i : Int)) * 1000000000 := by ring
    rw [hr]
  exact ⟨hrec, by decide, by decide, by decide,
    currentPrice_of_hourly_window 0 (halfPast 505) (hourly 500 30) Location.utc 0 1800000 5
      hrec (fun _ _ => rfl) (by decide) rfl rfl (by decide) (by decide) (by decide)⟩

theorem sampleDecoded_Y (impl : Int) (now : Time) :
    (mapToDrawingCommands impl now sampleDecoded).map (fun c => c.Y) = [7, 1, 4] := by
  rw [mapToDrawingCommands_map_Y, sampleDecoded_range.1, sampleDecoded_range.2,
    sampleDecoded_eq]
  simp only [List.map, scaledPrice_sample_min, scaledPrice_sample_max,
    scaledPrice_sample_mid]
  have k1 : F64.toInt impl (F64.fin (4503599627370496 * (2 : ℚ) ^ (-52 : Int))) = 1 :=
    toInt_of_floor impl _ 1 (by norm_num)
      (by rw [Int.floor_eq_iff]; constructor <;> norm_num) (by norm_num) (by norm_num)
  have k2 : F64.toInt impl (F64.fin (9007199254740991 * (2 : ℚ) ^ (-50 : Int))) = 7 :=
    toInt_of_floor impl _ 7 (by norm_num)
      (by rw [Int.floor_eq_iff]; constructor <;> norm_num) (by norm_num) (by norm_num)
  have k3 : F64.toInt impl (F64.fin (5066549580791808 * (2 : ℚ) ^ (-50 : Int))) = 4 :=
    toInt_of_floor impl _ 4 (by norm_num)
      (by rw [Int.floor_eq_iff]; constructor <;> norm_num) (by norm_num) (by norm_num)
  rw [k1, k2, k3]
  decide

/-- C11 fails on the code: for the window 0.10, 0.30, 0.20 as decoded, the bars get
Y = 7, 1, 4, while 8 - floor(1 + 7·(total - minPrice) / (maxPrice - minPrice)),
evaluated exactly on the same totals, is 7, 0, 4; the rounded slope form and the
truncation do not agree with the floor formula at the greatest total. -/
theorem mapToDrawingCommands_sample_Y_vs_floor :
    sampleDecoded ≠ [] ∧ minPrice sampleDecoded ≠ maxPrice sampleDecoded ∧
    (mapToDrawingCommands 0 (halfPast 800) sampleDecoded).map (fun c => c.Y) = [7, 1, 4] ∧
    sampleDecoded.map (fun p =>
      8 - ⌊1 + 7 * (p.Total - minPrice sampleDecoded) /
        (maxPrice sampleDecoded - minPrice sampleDecoded)⌋) = [7, 0, 4] := by
  refine ⟨by rw [sampleDecoded_eq]; exact List.cons_ne_nil _ _, ?_, sampleDecoded_Y 0 _, ?_⟩
  · rw [sampleDecoded_range.1, sampleDecoded_range.2]; norm_num
  · rw [sampleDecoded_range.1, sampleDecoded_range.2, sampleDecoded_eq]
    simp only [List.map]
    have f1 : ⌊(1 : ℚ) + 7 * (7205759403792794 * (2 : ℚ) ^ (-56 : Int) -
        7205759403792794 * (2 : ℚ) ^ (-56 : Int)) /
        (5404319552844595 * (2 : ℚ) ^ (-54 : Int) -
          7205759403792794 * (2 : ℚ) ^ (-56 : Int))⌋ = 1 := by
      rw [Int.floor_eq_iff]; constructor <;> norm_num
    have f2 : ⌊(1 : ℚ) + 7 * (5404319552844595 * (2 : ℚ) ^ (-54 : Int) -
        7205759403792794 * (2 : ℚ) ^ (-56 : Int)) /
        (5404319552844595 * (2 : ℚ) ^ (-54 : Int) -
          7205759403792794 * (2 : ℚ) ^ (-56 : Int))⌋ = 8 := by
      rw [Int.floor_eq_iff]; constructor <;> norm_num
    have f3 : ⌊(1 : ℚ) + 7 * (7205759403792794 * (2 : ℚ) ^ (-55 : Int) -
        7205759403792794 * (2 : ℚ) ^ (-56 : Int)) /
        (5404319552844595 * (2 : ℚ) ^ (-54 : Int) -
          7205759403792794 * (2 : ℚ) ^ (-56 : Int))⌋ = 4 := by
      rw [Int.floor_eq_iff]; constructor <;> norm_num
    rw [f1, f2, f3]
    decide

/-- C12 fails on the code at its own example: with the totals 0.10, 0.30, 0.20 as
decoded and every float64 operation rounded to binary64, the three bars get
Y = 7, 1, 4, and not 7, 0, 4; the order of the heights is as the claim says. -/
theorem mapToDrawingCommands64_sample_Y :
    (mapToDrawingCommands 0 (halfPast 800) sampleDecoded).map (fun c => c.Y) = [7, 1, 4] ∧
    (mapToDrawingCommands 0 (halfPast 800) sampleDecoded).map (fun c => c.Y) ≠ [7, 0, 4] := by
  rw [sampleDecoded_Y]
  exact ⟨rfl, by decide⟩

/-- C17 fails on the code: for the window 0.10, 0.30, 0.20 as decoded, with every
float64 operation rounded to binary64, the greatest total scales to 8 - 2^-50, which
is below 8 and truncates to 7, so its bar gets Y = 1 and not 0; the least total
scales to 1. -/
theorem scaledPrice64_sample_max_below_eight :
    maxPrice sampleDecoded = (decoded 0.30 701).Total ∧
    minPrice sampleDecoded = (decoded 0.10 700).Total ∧
    scaledPrice (minPrice sampleDecoded) (maxPrice sampleDecoded) (decoded 0.10 700) =
      F64.fin 1 ∧
    scaledPrice (minPrice sampleDecoded) (maxPrice sampleDecoded) (decoded 0.30 701) =
      F64.fin (8 - 1 / 2 ^ 50) ∧
    F64.toInt 0 (scaledPrice (minPrice sampleDecoded) (maxPrice sampleDecoded)
      (decoded 0.30 701)) = 7 ∧
    wrap64 (8 - F64.toInt 0 (scaledPrice (minPrice sampleDecoded) (maxPrice sampleDecoded)
      (decoded 0.30 701))) = 1 := by
  have hmax : scaledPrice (minPrice sampleDecoded) (maxPrice sampleDecoded)
      (decoded 0.30 701) = F64.fin (9007199254740991 * (2 : ℚ) ^ (-50 : Int)) := by
    rw [sampleDecoded_range.1, sampleDecoded_range.2]
    simp only [decoded, round64_three_tenths]
    exact scaledPrice_sample_max _
  have hmin : scaledPrice (minPrice sampleDecoded) (maxPrice sampleDecoded)
      (decoded 0.10 700) = F64.fin (4503599627370496 * (2 : ℚ) ^ (-52 : Int)) := by
    rw [sampleDecoded_range.1, sampleDecoded_range.2]
    simp only [decoded, round64_tenth]
    exact scaledPrice_sample_min _
  have k2 : F64.toInt 0 (F64.fin (9007199254740991 * (2 : ℚ) ^ (-50 : Int))) = 7 :=
    toInt_of_floor 0 _ 7 (by norm_num)
      (by rw [Int.floor_eq_iff]; constructor <;> norm_num) (by norm_num) (by norm_num)
  refine ⟨?_, ?_, ?_, ?_, ?_, ?_⟩
  · rw [sampleDecoded_range.2]; simp only [decoded, round64_three_tenths]
  · rw [sampleDecoded_range.1]; simp only [decoded, round64_tenth]
  · rw [hmin]; norm_num
  · rw [hmax]; norm_num
  · rw [hmax, k2]
  · rw [hmax, k2]; decide

end AwtrixTibber
